import Mathlib

/-!
Verification of the MySQL 5.1 binary log / two-phase-commit coordinator
(`sql/log.cc`) against its natural-language specification.

The development is a shallow embedding: the C++ data structures and the
functions the claims mention are translated into executable Lean
definitions (machine integers become `Nat` with explicit `% 2^w` where
overflow can matter; byte buffers become `List Nat`; fallible or possibly
non-terminating loops return `Option`), and the claims are proved as
theorems about those definitions.
-/

namespace MysqlBinlog

/-! ## Per-session transaction cache (`binlog_trx_data`, log.cc:174-281)

`trans_log` is an `IO_CACHE` used as a write cache; we model its logical
content (the bytes that a later read back would see, i.e. the bytes up to
the write position) as a `List Nat` of bytes.  `my_b_tell` is then the
length of that list.  `m_pending` (a `Rows_log_event*`) is modelled as an
`Option Nat` (only null-ness and identity matter to the claims). -/

/-- `MY_OFF_T_UNDEF` (log.cc:54): `~(my_off_t)0UL` with `my_off_t` a 64-bit
unsigned integer. -/
def MY_OFF_T_UNDEF : Nat := 2 ^ 64 - 1

structure BinlogTrxData where
  /-- Logical content of the `trans_log` IO_CACHE (bytes up to the write
  position); `my_b_tell(&trans_log)` is `transLog.length`. -/
  transLog : List Nat
  /-- `m_pending`, the pending `Rows_log_event*` (`none` = NULL). -/
  pending : Option Nat
  /-- `before_stmt_pos`. -/
  beforeStmtPos : Nat
  /-- `incident`. -/
  incident : Bool
  /-- `at_least_one_stmt_committed`. -/
  atLeastOneStmtCommitted : Bool
  deriving Repr, DecidableEq

namespace BinlogTrxData

/-- `binlog_trx_data::position` (log.cc:189): `my_b_tell(&trans_log)`. -/
def position (d : BinlogTrxData) : Nat := d.transLog.length

/-- `binlog_trx_data::empty` (log.cc:193):
`pending() == NULL && my_b_tell(&trans_log) == 0`. -/
def empty (d : BinlogTrxData) : Bool :=
  d.pending.isNone && d.transLog.length == 0

/-- `binlog_trx_data::truncate` (log.cc:202-225): delete the pending event,
reposition the write cache at `pos` (`reinit_io_cache(&trans_log,
WRITE_CACHE, pos, 0, 0)`, so the logical content becomes the first `pos`
bytes), reset `before_stmt_pos` to `MY_OFF_T_UNDEF` when `pos <
before_stmt_pos`, and set `at_least_one_stmt_committed = (pos > 0)`. -/
def truncate (d : BinlogTrxData) (pos : Nat) : BinlogTrxData :=
  { transLog := d.transLog.take pos
    pending := none
    beforeStmtPos := if pos < d.beforeStmtPos then MY_OFF_T_UNDEF else d.beforeStmtPos
    incident := d.incident
    atLeastOneStmtCommitted := decide (pos > 0) }

/-- `binlog_trx_data::reset` (log.cc:231-238): `if (!empty()) truncate(0);`
then clear `before_stmt_pos` and `incident`.  (The `trans_log.end_of_file`
re-initialisation has no observable effect on the modelled state.) -/
def reset (d : BinlogTrxData) : BinlogTrxData :=
  let d1 := if d.empty then d else d.truncate 0
  { d1 with beforeStmtPos := MY_OFF_T_UNDEF, incident := false }

/-- `binlog_trx_data::set_incident` (log.cc:252-255). -/
def set_incident (d : BinlogTrxData) : BinlogTrxData :=
  { d with incident := true }

end BinlogTrxData

/-- **C5.** `truncate(pos)` discards any pending rows event, sets the buffer
write position to `pos` (under the always-true-in-the-source side condition
that we only truncate backwards, `pos ≤` the current position), sets
`before_stmt_pos` to the undefined sentinel exactly when
`pos < before_stmt_pos` (otherwise leaves it unchanged), and sets
`at_least_one_stmt_committed = (pos > 0)`. -/
theorem truncate_spec (d : BinlogTrxData) (pos : Nat)
    (hpos : pos ≤ d.transLog.length) :
    (d.truncate pos).pending = none ∧
    (d.truncate pos).position = pos ∧
    (d.truncate pos).transLog = d.transLog.take pos ∧
    (d.truncate pos).beforeStmtPos =
      (if pos < d.beforeStmtPos then MY_OFF_T_UNDEF else d.beforeStmtPos) ∧
    ((d.truncate pos).atLeastOneStmtCommitted = true ↔ 0 < pos) ∧
    (d.truncate pos).incident = d.incident := by
  refine ⟨rfl, ?_, rfl, rfl, by simp [BinlogTrxData.truncate], rfl⟩
  simp [BinlogTrxData.truncate, BinlogTrxData.position, List.length_take,
    Nat.min_eq_left hpos]

/-- Witness for `truncate_spec` at a concrete cache state. -/
theorem truncate_spec_witness :
    (2 : Nat) ≤ ([7, 8, 9] : List Nat).length ∧
    ((BinlogTrxData.mk [7, 8, 9] (some 5) 3 true false).truncate 2).pending = none ∧
    ((BinlogTrxData.mk [7, 8, 9] (some 5) 3 true false).truncate 2).position = 2 ∧
    ((BinlogTrxData.mk [7, 8, 9] (some 5) 3 true false).truncate 2).transLog
      = ([7, 8, 9] : List Nat).take 2 ∧
    ((BinlogTrxData.mk [7, 8, 9] (some 5) 3 true false).truncate 2).beforeStmtPos
      = (if 2 < 3 then MY_OFF_T_UNDEF else 3) ∧
    (((BinlogTrxData.mk [7, 8, 9] (some 5) 3 true false).truncate 2).atLeastOneStmtCommitted
      = true ↔ 0 < 2) ∧
    ((BinlogTrxData.mk [7, 8, 9] (some 5) 3 true false).truncate 2).incident = true :=
  ⟨by decide, truncate_spec (BinlogTrxData.mk [7, 8, 9] (some 5) 3 true false) 2 (by decide)⟩

/-- `reset` in closed form: content and pending are cleared, the sentinel and
incident flags are reset; `at_least_one_stmt_committed` is cleared via
`truncate(0)` unless the cache was already empty (in which case `truncate`
is skipped and the flag keeps its old value). -/
theorem reset_eq (d : BinlogTrxData) :
    d.reset = { transLog := [], pending := none, beforeStmtPos := MY_OFF_T_UNDEF,
                incident := false,
                atLeastOneStmtCommitted :=
                  if d.empty then d.atLeastOneStmtCommitted else false } := by
  unfold BinlogTrxData.reset
  by_cases h : d.empty = true
  · have h' : d.pending.isNone = true ∧ d.transLog.length = 0 := by
      simpa [BinlogTrxData.empty] using h
    have hp : d.pending = none := by
      rcases hmm : d.pending with _ | v
      · rfl
      · rw [hmm] at h'; simp at h'
    have hl : d.transLog = [] := List.eq_nil_of_length_eq_zero h'.2
    simp [h, hp, hl]
  · simp [h, BinlogTrxData.truncate]

theorem reset_empty (d : BinlogTrxData) : d.reset.empty = true := by
  rw [reset_eq]; rfl

/-- **C9.** Cache reset is idempotent: a second `reset()` leaves the state
(buffer content and position, pending event, `before_stmt_pos`, `incident`,
`at_least_one_stmt_committed`) produced by the first one unchanged. -/
theorem reset_idem (d : BinlogTrxData) : d.reset.reset = d.reset := by
  rw [reset_eq d.reset, reset_eq d]
  simp [BinlogTrxData.empty]

/-! ## Session / transaction context

The fields of `THD` that the binlog hooks consult.  `thd->options &
OPTION_KEEP_LOG` and `thd->options & (OPTION_BEGIN | OPTION_NOT_AUTOCOMMIT)`
are modelled as the two Booleans they are used as. -/

structure ThdCtx where
  /-- `thd->transaction.all.modified_non_trans_table`. -/
  allModifiedNonTransTable : Bool
  /-- `thd->transaction.stmt.modified_non_trans_table`. -/
  stmtModifiedNonTransTable : Bool
  /-- `thd->options & OPTION_KEEP_LOG`. -/
  optionKeepLog : Bool
  /-- `thd->options & (OPTION_BEGIN | OPTION_NOT_AUTOCOMMIT)`. -/
  optionBeginOrNotAutocommit : Bool
  /-- `thd->current_stmt_binlog_row_based`. -/
  currentStmtBinlogRowBased : Bool
  /-- `thd->is_error()`. -/
  isError : Bool
  /-- `thd->main_da.sql_errno()`. -/
  sqlErrno : Nat
  deriving Repr, DecidableEq

/-- `ending_trans` (log.cc:4669-4673). -/
def ending_trans (thd : ThdCtx) (all : Bool) : Bool :=
  all || (!all && !thd.optionBeginOrNotAutocommit)

/-- `trans_has_updated_non_trans_table` (log.cc:4684-4688). -/
def trans_has_updated_non_trans_table (thd : ThdCtx) : Bool :=
  thd.allModifiedNonTransTable || thd.stmtModifiedNonTransTable

/-- `trans_has_no_stmt_committed` (log.cc:4700-4706). -/
def trans_has_no_stmt_committed (thd : ThdCtx) (trx : BinlogTrxData) (all : Bool) : Bool :=
  !all && !trx.atLeastOneStmtCommitted

/-- `stmt_has_updated_non_trans_table` (log.cc:4716-4719). -/
def stmt_has_updated_non_trans_table (thd : ThdCtx) : Bool :=
  thd.stmtModifiedNonTransTable

/-- Error codes recognised by `MYSQL_BIN_LOG::check_write_error`
(from `mysqld_error.h`; the exact numeric values act as opaque tags). -/
def ER_TRANS_CACHE_FULL : Nat := 1197

def ER_ERROR_ON_WRITE : Nat := 1026

def ER_BINLOG_LOGGING_IMPOSSIBLE : Nat := 1598

/-- `MYSQL_BIN_LOG::check_write_error` (log.cc:1695-1714): true iff the
session has a pending error whose code is `ER_TRANS_CACHE_FULL`,
`ER_ERROR_ON_WRITE` or `ER_BINLOG_LOGGING_IMPOSSIBLE`.  The function only
reads `thd`; it mutates nothing. -/
def check_write_error (thd : ThdCtx) : Bool :=
  if !thd.isError then false
  else
    thd.sqlErrno == ER_TRANS_CACHE_FULL ||
    thd.sqlErrno == ER_ERROR_ON_WRITE ||
    thd.sqlErrno == ER_BINLOG_LOGGING_IMPOSSIBLE

/-! ## Savepoints (log.cc:1740-1784)

`binlog_savepoint_set` saves the current cache position (the opaque
savepoint token, `binlog_trans_log_savepos`, log.cc:1329-1341) and then
appends the serialized `SAVEPOINT` query event to the transaction cache
(`mysql_bin_log.write(&qinfo)` routes a transactional query event into the
session's `trans_log`).  Event serialization is outside this core, so the
serialized bytes are a parameter. -/

def binlog_savepoint_set (d : BinlogTrxData) (savepointEventBytes : List Nat) :
    Nat × BinlogTrxData :=
  (d.position, { d with transLog := d.transLog ++ savepointEventBytes })

/-- `binlog_savepoint_rollback` (log.cc:1759-1784): if the transaction
updated a non-transactional table or `OPTION_KEEP_LOG` is set, append a
`ROLLBACK TO `name`` query event and leave the buffer intact; otherwise
truncate the cache to the savepoint token (`binlog_trans_log_truncate`,
log.cc:1360-1373, which calls `binlog_trx_data::truncate`). -/
def binlog_savepoint_rollback (thd : ThdCtx) (d : BinlogTrxData)
    (rollbackToEventBytes : List Nat) (sv : Nat) : BinlogTrxData :=
  if trans_has_updated_non_trans_table thd || thd.optionKeepLog then
    { d with transLog := d.transLog ++ rollbackToEventBytes }
  else
    d.truncate sv

/-- **C6.** Savepoint rollback: when the transaction touched a
non-transactional table or keep-log is set, a ROLLBACK TO record is
appended and the existing buffer bytes are untouched; otherwise the cache
is truncated to the savepoint token, restoring byte-for-byte the cache
content from the moment `binlog_savepoint_set` was invoked (`cur` is any
later cache state that still extends the bytes present at that moment, as
every cache operation between the two calls appends at or truncates to
statement boundaries at or after the token). -/
theorem savepoint_rollback_spec (thd : ThdCtx) (d0 cur : BinlogTrxData)
    (sp rb : List Nat) (token : Nat)
    (htoken : token = (binlog_savepoint_set d0 sp).1)
    (hpre : cur.transLog.take token = d0.transLog) :
    ((trans_has_updated_non_trans_table thd || thd.optionKeepLog) = true →
      (binlog_savepoint_rollback thd cur rb token).transLog = cur.transLog ++ rb) ∧
    ((trans_has_updated_non_trans_table thd || thd.optionKeepLog) = false →
      (binlog_savepoint_rollback thd cur rb token).transLog = d0.transLog) := by
  constructor
  · intro h
    simp [binlog_savepoint_rollback, h]
  · intro h
    simp [binlog_savepoint_rollback, h, BinlogTrxData.truncate, hpre]

/-- Witness for `savepoint_rollback_spec`: token 2 taken on a 2-byte cache,
a 1-byte SAVEPOINT event appended, two more bytes appended afterwards. -/
theorem savepoint_rollback_spec_witness :
    ((2 : Nat) = (binlog_savepoint_set (BinlogTrxData.mk [1, 2] none MY_OFF_T_UNDEF false false) [3]).1 ∧
      ((BinlogTrxData.mk [1, 2, 3, 4, 5] none MY_OFF_T_UNDEF false true).transLog.take 2
        = (BinlogTrxData.mk [1, 2] none MY_OFF_T_UNDEF false false).transLog)) ∧
    (((trans_has_updated_non_trans_table (ThdCtx.mk false false false true false false 0)
          || (ThdCtx.mk false false false true false false 0).optionKeepLog) = true →
        (binlog_savepoint_rollback (ThdCtx.mk false false false true false false 0)
            (BinlogTrxData.mk [1, 2, 3, 4, 5] none MY_OFF_T_UNDEF false true) [9] 2).transLog
          = (BinlogTrxData.mk [1, 2, 3, 4, 5] none MY_OFF_T_UNDEF false true).transLog ++ [9]) ∧
      ((trans_has_updated_non_trans_table (ThdCtx.mk false false false true false false 0)
          || (ThdCtx.mk false false false true false false 0).optionKeepLog) = false →
        (binlog_savepoint_rollback (ThdCtx.mk false false false true false false 0)
            (BinlogTrxData.mk [1, 2, 3, 4, 5] none MY_OFF_T_UNDEF false true) [9] 2).transLog
          = (BinlogTrxData.mk [1, 2] none MY_OFF_T_UNDEF false false).transLog)) :=
  ⟨⟨by decide, by decide⟩,
    savepoint_rollback_spec (ThdCtx.mk false false false true false false 0)
      (BinlogTrxData.mk [1, 2] none MY_OFF_T_UNDEF false false)
      (BinlogTrxData.mk [1, 2, 3, 4, 5] none MY_OFF_T_UNDEF false true)
      [3] [9] 2 (by decide) (by decide)⟩

/-! ## `MYSQL_BIN_LOG::write(THD*, IO_CACHE*, Log_event*, ...)` (log.cc:5609-5740)

The cache-to-log copy itself is modelled separately (see `write_cache`
below); here we embed the control flow of the surrounding `write`, which is
what claims C3 and C7 are about: which I/O steps run, in which order they
can fail (each fallible step gets an outcome flag), and the effect on
`prepared_xids`.  `stop_new_xids` waiting is part of the rotation model
(claim C4). -/

structure BinlogWriteEnv where
  /-- `is_open()`. -/
  isOpen : Bool
  /-- outcome of `qinfo.write(&log_file)` (the BEGIN event), log.cc:5654. -/
  qinfoWriteFails : Bool
  /-- outcome of `write_cache(cache, false)`, log.cc:5672. -/
  writeCacheFails : Bool
  /-- outcome of `commit_event->write(&log_file)`, log.cc:5680. -/
  commitEvWriteFails : Bool
  /-- outcome of `write_incident(...)` (log.cc:5689 and log.cc:1497). -/
  incidentWriteFails : Bool
  /-- outcome of `flush_and_sync(...)`, log.cc:5692. -/
  flushAndSyncFails : Bool
  /-- `cache->error` after the copy, log.cc:5695. -/
  cacheReadError : Bool
  /-- outcome of `rotate_and_purge(...)`, log.cc:5725. -/
  rotateFails : Bool
  /-- outcome of `thd->binlog_flush_pending_rows_event(TRUE)`, log.cc:1457. -/
  pendingRowsFlushFails : Bool
  /-- `my_b_tell(&log_file)` at the `log_was_full` check, log.cc:5721. -/
  logFileTell : Nat
  /-- `max_size`. -/
  maxSize : Nat
  deriving Repr, DecidableEq

/-- Result of `MYSQL_BIN_LOG::write`: `(error, prepared_xids', wrote an
INCIDENT event, log_was_full output)`. -/
structure BinlogWriteResult where
  error : Bool
  preparedXids : Nat
  wroteIncidentEvent : Bool
  logWasFull : Bool
  deriving Repr, DecidableEq

/-- `MYSQL_BIN_LOG::write` (log.cc:5609-5740).  `cachePos` is
`my_b_tell(cache)`, `commitIsXid` is `commit_event->get_type_code() ==
XID_EVENT`, `incident` the argument of the same name.  On the success path
with an XID commit event, `prepared_xids` is incremented under
`LOCK_prep_xids` (log.cc:5712-5717); on every error path (`goto err`) it is
left unchanged. -/
def MYSQL_BIN_LOG_write (env : BinlogWriteEnv) (cachePos : Nat)
    (commitIsXid : Bool) (incident : Bool) (prepXids : Nat) : BinlogWriteResult :=
  if env.isOpen then
    -- the `my_b_tell(cache) > 0` block, log.cc:5637-5702
    if 0 < cachePos then
      if env.qinfoWriteFails then ⟨true, prepXids, false, false⟩
      else if env.writeCacheFails then ⟨true, prepXids, false, false⟩
      else if env.commitEvWriteFails then ⟨true, prepXids, false, false⟩
      else if incident && env.incidentWriteFails then ⟨true, prepXids, false, false⟩
      else if env.flushAndSyncFails then ⟨true, prepXids, incident, false⟩
      else if env.cacheReadError then ⟨true, prepXids, incident, false⟩
      else if commitIsXid then
        ⟨false, prepXids + 1, incident, decide (env.maxSize ≤ env.logFileTell)⟩
      else if env.rotateFails then ⟨true, prepXids, incident, false⟩
      else ⟨false, prepXids, incident, false⟩
    else
      -- empty cache: no events written, but the XID bookkeeping still runs
      if commitIsXid then
        ⟨false, prepXids + 1, false, decide (env.maxSize ≤ env.logFileTell)⟩
      else if env.rotateFails then ⟨true, prepXids, false, false⟩
      else ⟨false, prepXids, false, false⟩
  else
    -- `if (likely(is_open()))` not taken: fall through and return 0
    ⟨false, prepXids, false, false⟩

/-- Result of `binlog_end_trans`: `(error, cache state, prepared_xids',
wrote an INCIDENT event)`. -/
structure EndTransResult where
  error : Bool
  trx : BinlogTrxData
  preparedXids : Nat
  wroteIncidentEvent : Bool
  deriving Repr, DecidableEq

/-- `binlog_end_trans` (log.cc:1436-1506).  `endEv = some isXid` models a
non-NULL `end_ev` (`isXid` records whether it is an `Xid_log_event`);
`none` models the NULL rollback case.  With an end event, the pending rows
event is serialized into the cache and the cache is flushed through
`MYSQL_BIN_LOG::write`, then the cache is reset (log.cc:1455-1482; the
bytes the pending-rows flush appends are irrelevant to the claims proved
about this model, so the cache content is left as-is).  With `end_ev =
NULL`, the pending event is dropped and the cache is reset (real
transaction, or statement outside any transaction — after writing an
INCIDENT event if one is flagged) or truncated to `before_stmt_pos`
(statement inside a transaction), log.cc:1484-1502. -/
def binlog_end_trans (thd : ThdCtx) (env : BinlogWriteEnv) (trx : BinlogTrxData)
    (endEv : Option Bool) (all : Bool) (prepXids : Nat) : EndTransResult :=
  match endEv with
  | some isXid =>
    if env.pendingRowsFlushFails then ⟨true, trx, prepXids, false⟩
    else
      let w := MYSQL_BIN_LOG_write env trx.position isXid trx.incident prepXids
      ⟨w.error, trx.reset, w.preparedXids, w.wroteIncidentEvent⟩
  | none =>
    -- `thd->binlog_remove_pending_rows_event(TRUE)`, log.cc:1493
    let trx0 : BinlogTrxData := { trx with pending := none }
    if all || !thd.optionBeginOrNotAutocommit then
      ⟨trx0.incident && env.incidentWriteFails, trx0.reset, prepXids, trx0.incident⟩
    else
      ⟨false, trx0.truncate trx0.beforeStmtPos, prepXids, false⟩

/-- Result of `binlog_rollback`, with one instrumentation field recording
whether the branch at log.cc:1626-1629 (the `trx_data->set_incident()`
guarded by the repeated `check_write_error`) executed. -/
structure RollbackResult where
  error : Bool
  trx : BinlogTrxData
  preparedXids : Nat
  wroteIncidentEvent : Bool
  nestedSetIncidentRan : Bool
  deriving Repr, DecidableEq

/-- `binlog_rollback` (log.cc:1591-1663). -/
def binlog_rollback (thd : ThdCtx) (env : BinlogWriteEnv) (trx : BinlogTrxData)
    (all : Bool) (prepXids : Nat) : RollbackResult :=
  let finish : EndTransResult → Bool → RollbackResult := fun r nested =>
    -- log.cc:1660-1661: `if (!all) trx_data->before_stmt_pos = MY_OFF_T_UNDEF;`
    let t := if all then r.trx else { r.trx with beforeStmtPos := MY_OFF_T_UNDEF }
    ⟨r.error, t, r.preparedXids, r.wroteIncidentEvent, nested⟩
  if trx.empty then
    ⟨false, trx.reset, prepXids, false, false⟩
  else if check_write_error thd then
    -- log.cc:1607-1631
    let nested := (stmt_has_updated_non_trans_table thd || thd.optionKeepLog)
                    && check_write_error thd
    let trx1 := if nested then trx.set_incident else trx
    finish (binlog_end_trans thd env trx1 none all prepXids) nested
  else if (ending_trans thd all
            && (trans_has_updated_non_trans_table thd || thd.optionKeepLog))
          || (trans_has_no_stmt_committed thd trx all
              && stmt_has_updated_non_trans_table thd
              && thd.currentStmtBinlogRowBased) then
    -- log.cc:1642-1651: flush the cache wrapped by a ROLLBACK query event
    finish (binlog_end_trans thd env trx (some false) all prepXids) false
  else if ending_trans thd all
          || (!thd.optionKeepLog && !stmt_has_updated_non_trans_table thd) then
    -- log.cc:1656-1658
    finish (binlog_end_trans thd env trx none all prepXids) false
  else
    finish ⟨false, trx, prepXids, false⟩ false

/-- A `BinlogWriteEnv` in which every fallible step succeeds. -/
def allOkEnv : BinlogWriteEnv :=
  ⟨true, false, false, false, false, false, false, false, false, 0, 100⟩

/-- A session state that satisfies `check_write_error` (a pending
`ER_TRANS_CACHE_FULL` error), whose statement modified a non-transactional
table, in autocommit mode. -/
def cacheFullThd : ThdCtx := ⟨false, true, false, false, false, true, ER_TRANS_CACHE_FULL⟩

/-- A non-empty cache with a clean incident flag. -/
def oneByteTrx : BinlogTrxData := ⟨[1], none, MY_OFF_T_UNDEF, false, false⟩

/-- **C7, counterexample.** The claim says the `trx_data->set_incident()`
branch nested inside `if (check_write_error(thd))` is unreachable.  It is
not: `check_write_error` is a pure predicate of the session state, so
inside the outer branch the repeated check is still true, and the nested
branch runs whenever the statement updated a non-transactional table (or
`OPTION_KEEP_LOG` is set).  Concretely: a session with a pending
`ER_TRANS_CACHE_FULL` error and a statement that modified a
non-transactional table enters the outer branch, executes the nested
`set_incident`, and (being in autocommit) goes on to emit an INCIDENT
event — an externally observable effect of the allegedly dead branch. -/
theorem binlog_rollback_nested_reachable :
    check_write_error cacheFullThd = true ∧
    oneByteTrx.empty = false ∧
    (binlog_rollback cacheFullThd allOkEnv oneByteTrx false 0).nestedSetIncidentRan = true ∧
    (binlog_rollback cacheFullThd allOkEnv oneByteTrx false 0).wroteIncidentEvent = true := by
  decide

/-- **C7, amended.** In `binlog_rollback`, whenever the outer
`check_write_error` branch is entered (on a non-empty cache), the nested
`set_incident` branch is not dead code: it executes exactly when the
statement updated a non-transactional table or `OPTION_KEEP_LOG` is set —
the repeated `check_write_error` conjunct is redundant (always true there),
not contradictory. -/
theorem binlog_rollback_nested_exact (thd : ThdCtx) (env : BinlogWriteEnv)
    (trx : BinlogTrxData) (all : Bool) (prepXids : Nat)
    (hwe : check_write_error thd = true)
    (hne : trx.empty = false) :
    (binlog_rollback thd env trx all prepXids).nestedSetIncidentRan
      = (stmt_has_updated_non_trans_table thd || thd.optionKeepLog) := by
  unfold binlog_rollback
  rw [hne, hwe]
  simp [hwe]

/-- Witness for `binlog_rollback_nested_exact` at the concrete state of the
counterexample. -/
theorem binlog_rollback_nested_exact_witness :
    (check_write_error cacheFullThd = true ∧ oneByteTrx.empty = false) ∧
    (binlog_rollback cacheFullThd allOkEnv oneByteTrx false 0).nestedSetIncidentRan
      = (stmt_has_updated_non_trans_table cacheFullThd || cacheFullThd.optionKeepLog) :=
  ⟨⟨by decide, by decide⟩,
    binlog_rollback_nested_exact cacheFullThd allOkEnv oneByteTrx false 0
      (by decide) (by decide)⟩

/-! ## Binlog-based 2PC interface: `log_xid` / `unlog` (log.cc:7162-7187) -/

/-- `TC_LOG_BINLOG::log_xid` (log.cc:7162-7174): build an `Xid_log_event`
and commit the whole transaction through `binlog_end_trans`; the return
value is inverted (`0` = error, nonzero = success). -/
def TC_LOG_BINLOG_log_xid (thd : ThdCtx) (env : BinlogWriteEnv)
    (trx : BinlogTrxData) (prepXids : Nat) : Nat × EndTransResult :=
  let r := binlog_end_trans thd env trx (some true) true prepXids
  (if r.error then 0 else 1, r)

/-- `TC_LOG_BINLOG::unlog` (log.cc:7176-7187): under `LOCK_prep_xids`,
decrement `prepared_xids` and, exactly when it reaches 0, broadcast
`COND_prep_xids` (the "rotate may proceed" condition).  Returns the new
counter and whether the broadcast happened. -/
def TC_LOG_BINLOG_unlog (prepXids : Nat) : Nat × Bool :=
  (prepXids - 1, prepXids - 1 == 0)

/-- **C3.** A successful `log_xid` increments `prepared_xids` exactly once
(it goes from `p` to `p + 1` across the call), and `unlog` decrements it
exactly once and broadcasts the rotate-may-proceed condition exactly when
the counter reaches 0.  The hypothesis `env.isOpen = true` reflects
`DBUG_ASSERT(is_open())` at log.cc:5630 (with the log closed no XID record
is written at all). -/
theorem write_xid_success_increments (env : BinlogWriteEnv) (cachePos : Nat)
    (incident : Bool) (p : Nat) (hopen : env.isOpen = true)
    (h : (MYSQL_BIN_LOG_write env cachePos true incident p).error = false) :
    (MYSQL_BIN_LOG_write env cachePos true incident p).preparedXids = p + 1 := by
  unfold MYSQL_BIN_LOG_write at h ⊢
  rw [hopen] at h ⊢
  simp only [if_true] at h ⊢
  split_ifs at h ⊢ <;> simp_all

theorem log_xid_unlog_spec (thd : ThdCtx) (env : BinlogWriteEnv)
    (trx : BinlogTrxData) (prepXids : Nat)
    (hopen : env.isOpen = true)
    (hsuccess : (TC_LOG_BINLOG_log_xid thd env trx prepXids).1 = 1) :
    (TC_LOG_BINLOG_log_xid thd env trx prepXids).2.preparedXids = prepXids + 1 ∧
    (∀ p : Nat, 0 < p →
      (TC_LOG_BINLOG_unlog p).1 = p - 1 ∧
      ((TC_LOG_BINLOG_unlog p).2 = true ↔ p - 1 = 0)) := by
  constructor
  · have herr : (binlog_end_trans thd env trx (some true) true prepXids).error = false := by
      by_cases h : (binlog_end_trans thd env trx (some true) true prepXids).error
      · simp [TC_LOG_BINLOG_log_xid, h] at hsuccess
      · simpa using h
    cases hpf : env.pendingRowsFlushFails with
    | true => rw [binlog_end_trans, hpf] at herr; simp at herr
    | false =>
      rw [TC_LOG_BINLOG_log_xid]
      rw [binlog_end_trans, hpf] at herr ⊢
      simp only [Bool.false_eq_true, if_false] at herr ⊢
      exact write_xid_success_increments env trx.position trx.incident prepXids hopen herr
  · intro p hp
    refine ⟨rfl, ?_⟩
    simp [TC_LOG_BINLOG_unlog]

/-- Witness for `log_xid_unlog_spec`: a successful `log_xid` on a 1-byte
cache with no pending error, starting from `prepared_xids = 0`. -/
theorem log_xid_unlog_spec_witness :
    (allOkEnv.isOpen = true ∧
      (TC_LOG_BINLOG_log_xid cacheFullThd allOkEnv oneByteTrx 0).1 = 1) ∧
    ((TC_LOG_BINLOG_log_xid cacheFullThd allOkEnv oneByteTrx 0).2.preparedXids = 0 + 1 ∧
      (∀ p : Nat, 0 < p →
        (TC_LOG_BINLOG_unlog p).1 = p - 1 ∧
        ((TC_LOG_BINLOG_unlog p).2 = true ↔ p - 1 = 0))) :=
  ⟨⟨by decide, by decide⟩,
    log_xid_unlog_spec cacheFullThd allOkEnv oneByteTrx 0 (by decide) (by decide)⟩

/-! ## Recovery scan (`TC_LOG_BINLOG::recover`, log.cc:7189-7286, and the
post-recovery trim in `TC_LOG_BINLOG::open`, log.cc:7089-7138)

The scan reads events sequentially with `Log_event::read_log_event`; the
loop body only runs for events that were read successfully and are valid
(`ev && ev->is_valid()`), so the model processes a list of well-read
events.  Each event carries the data the loop body inspects: its type (a
QUERY event additionally carries its query string, an XID event its xid)
and `my_b_tell(log)` after reading it (the offset just past the event). -/

inductive RecEventType where
  | query (q : String)
  | xid (x : Nat)
  | other
  deriving Repr, DecidableEq

structure RecEvent where
  etype : RecEventType
  /-- `my_b_tell(log)` after this event was read. -/
  endPos : Nat
  deriving Repr, DecidableEq

structure RecoverState where
  inTransaction : Bool
  validPos : Nat
  xids : List Nat
  deriving Repr, DecidableEq

/-- One iteration of the scan loop of `TC_LOG_BINLOG::recover`
(log.cc:7210-7268): set `in_transaction` on a `BEGIN` query; clear it on a
`COMMIT` query, or on an XID event while also collecting the xid; then, if
not inside a transaction (`!log->error && !in_transaction` — the model
holds only successfully read events, so `log->error` is clear), advance
`valid_pos` to the offset just past this event. -/
def recover_step (st : RecoverState) (ev : RecEvent) : RecoverState :=
  let in1 := if ev.etype = RecEventType.query "BEGIN" then true else st.inTransaction
  let st1 : RecoverState :=
    if ev.etype = RecEventType.query "COMMIT" then
      { st with inTransaction := false }
    else
      match ev.etype with
      | RecEventType.xid x => { st with inTransaction := false, xids := x :: st.xids }
      | _ => { st with inTransaction := in1 }
  if st1.inTransaction then st1 else { st1 with validPos := ev.endPos }

/-- The whole scan: fold `recover_step` over the events of the last log
file, starting just past the format-description event
(`valid_pos = my_b_tell(&log)` at log.cc:7076). -/
def recover_scan (start : Nat) (evs : List RecEvent) : RecoverState :=
  evs.foldl recover_step ⟨false, start, []⟩

/-- The trim decision in `TC_LOG_BINLOG::open` (log.cc:7091-7123): the
crashed log file is resized to `valid_pos` (`my_chsize`) exactly when
`valid_pos > 0` and `valid_pos < binlog_size`. -/
def binlog_trim_runs (validPos binlogSize : Nat) : Bool :=
  0 < validPos && validPos < binlogSize

/-- **C2.** After each scanned event, `valid_pos` is advanced to the offset
just past that event exactly when the scan is not inside a transaction once
the event has been processed (otherwise it is left where it was); and the
recovered log file is truncated to `valid_pos` only when `valid_pos` is
strictly smaller than the file size (the code condition is
`0 < valid_pos ∧ valid_pos < binlog_size`). -/
theorem recover_valid_pos_spec :
    (∀ (st : RecoverState) (ev : RecEvent),
      (recover_step st ev).validPos =
        if (recover_step st ev).inTransaction then st.validPos else ev.endPos) ∧
    (∀ validPos binlogSize : Nat,
      binlog_trim_runs validPos binlogSize = true ↔
        0 < validPos ∧ validPos < binlogSize) ∧
    (∀ validPos binlogSize : Nat,
      binlog_trim_runs validPos binlogSize = true → validPos < binlogSize) := by
  refine ⟨?_, ?_, ?_⟩
  · intro st ev
    rcases hev : ev.etype with q | x | _
    · by_cases hb : q = "BEGIN"
      · subst hb
        simp [recover_step, hev]
      · by_cases hc : q = "COMMIT"
        · subst hc
          simp [recover_step, hev]
        · simp only [recover_step, hev]
          by_cases ht : st.inTransaction <;> simp [ht, hb, hc]
    · simp [recover_step, hev]
    · simp only [recover_step, hev]
      by_cases ht : st.inTransaction <;> simp [ht]
  · intro v s
    simp [binlog_trim_runs]
  · intro v s h
    simp [binlog_trim_runs] at h
    exact h.2

/-! ## Group-commit ticketing (log.cc:4274-4495)

`current_ticket`, `next_ticket` and `thd->ticket` are `ulonglong`
(64-bit); arithmetic on them is modulo `2^64`. -/

def two64 : Nat := 2 ^ 64

structure GroupCommitState where
  /-- `group_commit_allowed` (initialised TRUE in the constructor,
  log.cc:2575). -/
  groupCommitAllowed : Bool
  /-- `force_binlog_order`. -/
  forceBinlogOrder : Bool
  /-- `current_ticket`. -/
  currentTicket : Nat
  /-- `next_ticket`. -/
  nextTicket : Nat
  deriving Repr, DecidableEq

/-- `MYSQL_BIN_LOG::disable_group_commit` (log.cc:4274-4288): clear
`group_commit_allowed` (and log an error). -/
def disable_group_commit (s : GroupCommitState) : GroupCommitState :=
  { s with groupCommitAllowed := false }

/-- `MYSQL_BIN_LOG::order_for_group_commit` (log.cc:4295-4328), with the
`DBUG_EXECUTE_IF` test hooks omitted.  Returns `(ret, thd->ticket', state')`
where `ret = 0` means the session is ordered and any nonzero return sends
it down the unordered path. -/
def order_for_group_commit (s : GroupCommitState) (thdTicket : Nat)
    (htOrdered : Bool) : Nat × Nat × GroupCommitState :=
  if thdTicket ≠ 0 then
    (1, thdTicket, disable_group_commit s)
  else if !s.groupCommitAllowed || !s.forceBinlogOrder || !htOrdered then
    (1, thdTicket, s)
  else
    -- `thd->ticket = next_ticket++;` under LOCK_group_commit
    let t := s.nextTicket
    let s1 : GroupCommitState := { s with nextTicket := (s.nextTicket + 1) % two64 }
    if (t + 1) % two64 = 0 then
      (1, t, disable_group_commit s1)
    else
      (0, t, s1)

/-- `MYSQL_BIN_LOG::increment_group_commit_ticket` (log.cc:4334-4363).
Returns the new shared state and the new `thd->ticket` (reset to 0). -/
def increment_group_commit_ticket (s : GroupCommitState) (thdTicket : Nat) :
    GroupCommitState × Nat :=
  if thdTicket = 0 then (s, thdTicket)
  else
    let s1 := if thdTicket ≠ s.currentTicket then disable_group_commit s else s
    ({ s1 with currentTicket := (s1.currentTicket + 1) % two64 }, 0)

/-- The transitions of the shared group-commit state.  In the production
code (`DBUG_EXECUTE_IF` hooks compiled out) `group_commit_allowed` is
written only by `disable_group_commit`; the functions that run against this
state are `order_for_group_commit`, `increment_group_commit_ticket` and
`wait_for_group_commit_order` (whose only effects on this state are its
`disable_group_commit` calls at log.cc:4385 and log.cc:4450). -/
inductive GroupCommitStep : GroupCommitState → GroupCommitState → Prop
  | order (s : GroupCommitState) (t : Nat) (ht : Bool) :
      GroupCommitStep s (order_for_group_commit s t ht).2.2
  | increment (s : GroupCommitState) (t : Nat) :
      GroupCommitStep s (increment_group_commit_ticket s t).1
  | waitDisable (s : GroupCommitState) :
      GroupCommitStep s (disable_group_commit s)
  | waitKeep (s : GroupCommitState) :
      GroupCommitStep s s

theorem groupCommitStep_monotone {s s' : GroupCommitState}
    (h : GroupCommitStep s s') (hoff : s.groupCommitAllowed = false) :
    s'.groupCommitAllowed = false := by
  cases h with
  | order t ht =>
    unfold order_for_group_commit
    split_ifs <;> simp_all [disable_group_commit]
  | increment t =>
    unfold increment_group_commit_ticket
    split_ifs <;> simp_all [disable_group_commit]
  | waitDisable => simp [disable_group_commit]
  | waitKeep => exact hoff

theorem groupCommit_stays_disabled {s s' : GroupCommitState}
    (h : Relation.ReflTransGen GroupCommitStep s s')
    (hoff : s.groupCommitAllowed = false) :
    s'.groupCommitAllowed = false := by
  induction h with
  | refl => exact hoff
  | tail _ hstep ih => exact groupCommitStep_monotone hstep ih

/-- **C8.** When ticket assignment detects rollover (the assigned ticket
plus one is 0 modulo `2^64`), `order_for_group_commit` disables group
commit and returns nonzero, so the session completes its commit via the
unordered path; and from then on `group_commit_allowed` stays false under
every further modelled operation on the shared state. -/
theorem ticket_rollover_disables (s : GroupCommitState) (htOrdered : Bool)
    (hallowed : s.groupCommitAllowed = true)
    (hforce : s.forceBinlogOrder = true)
    (hht : htOrdered = true)
    (hroll : (s.nextTicket + 1) % two64 = 0) :
    (order_for_group_commit s 0 htOrdered).1 = 1 ∧
    (order_for_group_commit s 0 htOrdered).2.2.groupCommitAllowed = false ∧
    (∀ s' : GroupCommitState,
      Relation.ReflTransGen GroupCommitStep (order_for_group_commit s 0 htOrdered).2.2 s' →
      s'.groupCommitAllowed = false) := by
  have hres : order_for_group_commit s 0 htOrdered
      = (1, s.nextTicket,
          disable_group_commit { s with nextTicket := (s.nextTicket + 1) % two64 }) := by
    unfold order_for_group_commit
    simp [hallowed, hforce, hht, hroll]
  refine ⟨by rw [hres], by rw [hres]; rfl, ?_⟩
  intro s' hreach
  exact groupCommit_stays_disabled hreach (by rw [hres] at *; rfl)

/-- Witness for `ticket_rollover_disables`: `next_ticket = 2^64 - 1`, so the
assigned ticket wraps. -/
theorem ticket_rollover_disables_witness :
    ((GroupCommitState.mk true true 7 (two64 - 1)).groupCommitAllowed = true ∧
      (GroupCommitState.mk true true 7 (two64 - 1)).forceBinlogOrder = true ∧
      ((GroupCommitState.mk true true 7 (two64 - 1)).nextTicket + 1) % two64 = 0) ∧
    ((order_for_group_commit (GroupCommitState.mk true true 7 (two64 - 1)) 0 true).1 = 1 ∧
      (order_for_group_commit (GroupCommitState.mk true true 7 (two64 - 1)) 0
          true).2.2.groupCommitAllowed = false ∧
      (∀ s' : GroupCommitState,
        Relation.ReflTransGen GroupCommitStep
          (order_for_group_commit (GroupCommitState.mk true true 7 (two64 - 1)) 0 true).2.2 s' →
        s'.groupCommitAllowed = false)) :=
  ⟨⟨rfl, rfl, by decide⟩,
    ticket_rollover_disables (GroupCommitState.mk true true 7 (two64 - 1)) true
      rfl rfl rfl (by decide)⟩

/-! ## Rotation vs. outstanding prepared XIDs
(`MYSQL_BIN_LOG::new_file_impl`, log.cc:4009-4187, and the XID-commit path
of `MYSQL_BIN_LOG::write`, log.cc:5612-5625 and 5711-5716)

The concurrency around rotation is modelled as a transition system.  The
mapping to the source:

* `logXid` — a session in `MYSQL_BIN_LOG::write` committing an XID
  transaction with a non-empty cache (`my_b_tell(cache) > 0`).  It holds
  `LOCK_log` from entry to exit; at entry it waits on `COND_stop_xids`
  while `stop_new_xids` is set (log.cc:5612-5625: the wait runs because
  `my_b_tell(cache) > 0` holds), and its increment of `prepared_xids`
  (log.cc:5711-5716) happens before it releases `LOCK_log`.  Needing
  `LOCK_log`, it cannot run while the rotator holds the lock (the
  `switching` phase); the gate makes it wait otherwise.
* `emptyXidIdle` / `emptyXidBypass` — the same path for an XID commit
  whose transaction cache is empty: the guard of the wait at
  log.cc:5612-5616 includes `my_b_tell(cache) > 0`, so with an empty cache
  the session never waits on `COND_stop_xids`, yet the increment at
  log.cc:5711-5716 still runs (it is conditioned only on the commit event
  being an `XID_EVENT`).  The transition therefore requires only
  `LOCK_log` (any phase but `switching`), ignoring `stop_new_xids`; the
  ghost field `bypassed` counts such increments that land while a rotation
  is in progress.  The `DBUG_ASSERT(!stop_new_xids)` at log.cc:5713 would
  flag this in debug builds only.
* `unlog` — `TC_LOG_BINLOG::unlog` decrementing `prepared_xids`
  (log.cc:7179-7185); it takes only `LOCK_prep_xids`, so it is possible in
  every phase.
* `beginRotateFast` — `new_file_impl` up to `stop_new_xids = TRUE`
  (log.cc:4044) when `prepared_xids == 0`: the drain at log.cc:4058-4075
  is skipped, `LOCK_log` is never released, and the rotator proceeds
  directly to the switch.
* `beginRotateDrain` — the same entry with `prepared_xids > 0`: the
  rotator releases `LOCK_log` (log.cc:4063-4064) and waits on
  `COND_prep_xids` (`draining`).
* `observeZero` — the `while (prepared_xids)` loop at log.cc:4066-4069
  exiting: the rotator has observed `prepared_xids == 0` under
  `LOCK_prep_xids` and released it (log.cc:4071), but has not yet
  reacquired `LOCK_log` (`relocking`).
* `relock` — the rotator reacquires `LOCK_log` and `LOCK_index`
  (log.cc:4072-4073) and proceeds to the switch; `prepared_xids` is not
  re-checked (the `DBUG_ASSERT(!prepared_xids)` at log.cc:4075 is compiled
  out in release builds).
* `finishRotate` — the close of the old file and open of the new one
  (log.cc:4116-4150) followed by `stop_new_xids = FALSE` (log.cc:4156). -/

/-- `TC_LOG_HEADER_SIZE = sizeof(tc_log_magic) + 1` (log.cc:6534-6536). -/
def TC_LOG_HEADER_SIZE : Nat := 5

/-- `pg->start = (my_xid *)(data + i*tc_log_page_size)` (log.cc:6604). -/
def tc_page_raw_start (ps i : Nat) : Nat := i * ps

/-- `pg->end = (my_xid *)(pg->start + tc_log_page_size)` (log.cc:6605),
in bytes: `8 * tc_log_page_size` past `start`. -/
def tc_page_end (ps i : Nat) : Nat := tc_page_raw_start ps i + 8 * ps

/-- `pages[0].size = (tc_log_page_size - TC_LOG_HEADER_SIZE)/sizeof(my_xid)`
(log.cc:6608-6609). -/
def tc_page0_size (ps : Nat) : Nat := (ps - TC_LOG_HEADER_SIZE) / 8

/-- Byte offset of the first slot of page `i`: pages other than the first
start at `data + i*tc_log_page_size`; the first page's slot array is
relocated to `pages[0].end - pages[0].size` (log.cc:6610). -/
def tc_page_start (ps i : Nat) : Nat :=
  if i = 0 then tc_page_end ps 0 - 8 * tc_page0_size ps else tc_page_raw_start ps i

/-- `cookie = (ulong)((uchar *)p->ptr - data)` (log.cc:6773) for the `k`-th
slot of page `i`: each slot is one `my_xid` (8 bytes). -/
def tc_slot_offset (ps i k : Nat) : Nat := tc_page_start ps i + 8 * k

/-- `return err ? 0 : cookie;` (log.cc:6812): `err` is nonzero exactly when
the sync step covering this page failed (`p->state == ERROR` observed after
waiting, log.cc:6793, where `sync()` sets `state = err ? ERROR : POOL`,
log.cc:6832 — or the direct `err = sync()` result, log.cc:6809). -/
def TC_LOG_MMAP_log_xid_ret (syncFailed : Bool) (cookie : Nat) : Nat :=
  if syncFailed then 0 else cookie

/-- **C10.** `TC_LOG_MMAP::log_xid` returns 0 exactly when the sync step
failed; on success the returned cookie is the byte offset of the claimed
slot, and that offset is never 0 — in particular the first page's slot
array begins at or past the `TC_LOG_HEADER_SIZE`-byte file header, so a 0
return unambiguously signals an error. -/
theorem tc_log_mmap_log_xid_spec (ps i k : Nat) (syncFailed : Bool)
    (hps : TC_LOG_HEADER_SIZE ≤ ps) :
    TC_LOG_HEADER_SIZE ≤ tc_slot_offset ps 0 k ∧
    0 < tc_slot_offset ps i k ∧
    (TC_LOG_MMAP_log_xid_ret syncFailed (tc_slot_offset ps i k) = 0 ↔
      syncFailed = true) := by
  have hstart0 : TC_LOG_HEADER_SIZE ≤ tc_page_start ps 0 := by
    unfold TC_LOG_HEADER_SIZE at hps ⊢
    simp [tc_page_start, tc_page_end, tc_page_raw_start, tc_page0_size,
      TC_LOG_HEADER_SIZE]
    omega
  have hstart : 0 < tc_page_start ps i := by
    rcases Nat.eq_zero_or_pos i with h0 | h0
    · subst h0
      unfold TC_LOG_HEADER_SIZE at hstart0
      omega
    · unfold tc_page_start tc_page_raw_start
      rw [if_neg (by omega)]
      have h1 : 1 * ps ≤ i * ps := Nat.mul_le_mul_right ps h0
      unfold TC_LOG_HEADER_SIZE at hps
      omega
  have hslot : 0 < tc_slot_offset ps i k :=
    Nat.lt_of_lt_of_le hstart (Nat.le_add_right _ _)
  refine ⟨Nat.le_trans hstart0 (Nat.le_add_right _ _), hslot, ?_⟩
  unfold TC_LOG_MMAP_log_xid_ret
  cases syncFailed
  · simp
    omega
  · simp

/-- Witness for `tc_log_mmap_log_xid_spec` at a 4096-byte page. -/
theorem tc_log_mmap_log_xid_spec_witness :
    TC_LOG_HEADER_SIZE ≤ 4096 ∧
    (TC_LOG_HEADER_SIZE ≤ tc_slot_offset 4096 0 0 ∧
      0 < tc_slot_offset 4096 0 0 ∧
      (TC_LOG_MMAP_log_xid_ret false (tc_slot_offset 4096 0 0) = 0 ↔ false = true)) :=
  ⟨by decide, tc_log_mmap_log_xid_spec 4096 0 0 false (by decide)⟩

/-! ## The cache-to-log copy with `end_log_pos` rewriting
(`MYSQL_BIN_LOG::write_cache`, log.cc:5379-5511)

The cache is read in segments (`my_b_fill`); `segs` is the list of
segments the cache hands out, whose concatenation is the byte stream of
the buffered events.  The copy rewrites the `end_log_pos` field (4 bytes
little-endian at offset `LOG_POS_OFFSET` of each 19-byte event header) by
adding `group = my_b_tell(&log_file)`, handling headers split across
segment boundaries with the `carry`/`header[]` mechanism.  C `uint`
arithmetic is `Nat` with explicit `% 2^32` where a wrap is possible. -/

def LOG_EVENT_HEADER_LEN : Nat := 19

def EVENT_LEN_OFFSET : Nat := 9

def LOG_POS_OFFSET : Nat := 13

def two32 : Nat := 2 ^ 32

/-- `uint4korr`: read a 4-byte little-endian unsigned integer at byte
offset `i`. -/
def uint4korr (l : List Nat) (i : Nat) : Nat :=
  l.getD i 0 + 256 * l.getD (i + 1) 0 + 65536 * l.getD (i + 2) 0 +
    16777216 * l.getD (i + 3) 0

/-- `int4store`: overwrite the 4 bytes at offset `i` with the low 32 bits
of `v`, little-endian. -/
def int4store (l : List Nat) (i : Nat) (v : Nat) : List Nat :=
  l.take i ++ [v % 256, v / 256 % 256, v / 65536 % 256, v / 16777216 % 256] ++
    l.drop (i + 4)

/-- State of the copy loop between outer iterations: `carry` and the saved
partial header bytes (`uchar header[LOG_EVENT_HEADER_LEN]`, only the first
`carry` of which are live), `hdr_offs`, and the bytes written to the log
file so far. -/
structure WCState where
  carry : Nat
  header : List Nat
  hdrOffs : Nat
  out : List Nat
  deriving Repr, DecidableEq

/-- The inner `while (hdr_offs < length)` loop (log.cc:5453-5481) over one
segment.  Returns `(segment after in-place fixes, length after a possible
truncation by the split-header branch, final hdr_offs, carry, saved header
bytes)`.  The C loop does not terminate if an event-length field reads 0;
the recursion is fuelled and returns `none` in that case. -/
def write_cache_hdrs (group : Nat) :
    Nat → List Nat → Nat → Option (List Nat × Nat × Nat × Nat × List Nat)
  | 0, _, _ => none
  | fuel + 1, seg, hdrOffs =>
    if hdrOffs < seg.length then
      if seg.length < hdrOffs + LOG_EVENT_HEADER_LEN then
        -- partial header only: save what we can get (log.cc:5460-5465)
        some (seg, hdrOffs, hdrOffs, seg.length - hdrOffs,
              (seg.drop hdrOffs).take (seg.length - hdrOffs))
      else
        -- full event header: fix end_log_pos, jump to the next header
        -- (log.cc:5466-5480)
        let seg' := int4store seg (hdrOffs + LOG_POS_OFFSET)
                      ((uint4korr seg (hdrOffs + LOG_POS_OFFSET) + group) % two32)
        write_cache_hdrs group fuel seg'
          ((hdrOffs + uint4korr seg' (hdrOffs + EVENT_LEN_OFFSET)) % two32)
    else
      some (seg, seg.length, hdrOffs, 0, [])

/-- One iteration of the outer `do ... while ((length = my_b_fill(cache)))`
loop (log.cc:5408-5504): resolve a pending split header (log.cc:5415-5440
— assemble both halves, fix `end_log_pos`, emit the first half, patch the
fixed second half back into the segment, recompute `hdr_offs`), run the
inner header loop, emit the (possibly truncated) segment, and perform the
final `hdr_offs -= length` (log.cc:5491; `hdr_offs ≥ length` holds at every
loop exit, so plain subtraction agrees with the C `uint` arithmetic). -/
def write_cache_seg (group : Nat) (st : WCState) (seg : List Nat) :
    Option WCState :=
  let step1 : List Nat × Nat × List Nat :=
    if 0 < st.carry then
      let hdr := st.header ++ seg.take (LOG_EVENT_HEADER_LEN - st.carry)
      let hdr' := int4store hdr LOG_POS_OFFSET
                    ((uint4korr hdr LOG_POS_OFFSET + group) % two32)
      (hdr'.drop st.carry ++ seg.drop (LOG_EVENT_HEADER_LEN - st.carry),
       (uint4korr hdr' EVENT_LEN_OFFSET + two32 - st.carry) % two32,
       hdr'.take st.carry)
    else
      (seg, st.hdrOffs, [])
  match write_cache_hdrs group (step1.1.length + 1) step1.1 step1.2.1 with
  | none => none
  | some (seg2, len2, hdrEnd, carry2, hb2) =>
    some { carry := carry2, header := hb2, hdrOffs := hdrEnd - len2,
           out := st.out ++ step1.2.2 ++ seg2.take len2 }

/-- `MYSQL_BIN_LOG::write_cache` (log.cc:5379-5511): `group` is
`my_b_tell(&log_file)` at the start of the copy; the loop state starts with
`hdr_offs = carry = 0` and each segment is processed in turn.  (The model
covers the successful copy: `my_b_write` failures make the C function
return early with `ER_ERROR_ON_WRITE` without completing the copy.) -/
def write_cache (group : Nat) (segs : List (List Nat)) : Option WCState :=
  segs.foldlM (write_cache_seg group) ⟨0, [], 0, []⟩

/-- The per-event form of the rewrite: add `group` to the 32-bit
`end_log_pos` field at offset `LOG_POS_OFFSET`, leaving every other byte
(in particular the whole payload) unchanged. -/
def fix_end_log_pos (group : Nat) (ev : List Nat) : List Nat :=
  int4store ev LOG_POS_OFFSET ((uint4korr ev LOG_POS_OFFSET + group) % two32)

/-- A well-formed serialized event: at least a full 19-byte header, and the
total-length header field holds the event's byte length. -/
def WFEvent (ev : List Nat) : Prop :=
  LOG_EVENT_HEADER_LEN ≤ ev.length ∧ uint4korr ev EVENT_LEN_OFFSET = ev.length

instance (ev : List Nat) : Decidable (WFEvent ev) := by
  unfold WFEvent
  infer_instance

/-! ### Byte-access algebra for `uint4korr` / `int4store` -/

theorem getD_take_of_lt (l : List Nat) (k n : Nat) (h : n < k) :
    (l.take k).getD n 0 = l.getD n 0 := by
  simp [List.getD_eq_getElem?_getD, List.getElem?_take, h]

theorem uint4korr_take (l : List Nat) (k i : Nat) (h : i + 4 ≤ k) :
    uint4korr (l.take k) i = uint4korr l i := by
  unfold uint4korr
  rw [getD_take_of_lt l k i (by omega), getD_take_of_lt l k (i + 1) (by omega),
    getD_take_of_lt l k (i + 2) (by omega), getD_take_of_lt l k (i + 3) (by omega)]

theorem uint4korr_append_left (l m : List Nat) (i : Nat) (h : i + 4 ≤ l.length) :
    uint4korr (l ++ m) i = uint4korr l i := by
  unfold uint4korr
  rw [List.getD_append l m 0 i (by omega), List.getD_append l m 0 (i + 1) (by omega),
    List.getD_append l m 0 (i + 2) (by omega), List.getD_append l m 0 (i + 3) (by omega)]

theorem uint4korr_append_right (l m : List Nat) (i : Nat) :
    uint4korr (l ++ m) (l.length + i) = uint4korr m i := by
  unfold uint4korr
  rw [List.getD_append_right l m 0 (l.length + i) (by omega),
    List.getD_append_right l m 0 (l.length + i + 1) (by omega),
    List.getD_append_right l m 0 (l.length + i + 2) (by omega),
    List.getD_append_right l m 0 (l.length + i + 3) (by omega)]
  have h1 : l.length + i - l.length = i := by omega
  have h2 : l.length + i + 1 - l.length = i + 1 := by omega
  have h3 : l.length + i + 2 - l.length = i + 2 := by omega
  have h4 : l.length + i + 3 - l.length = i + 3 := by omega
  rw [h1, h2, h3, h4]

theorem length_int4store (l : List Nat) (i v : Nat) (h : i + 4 ≤ l.length) :
    (int4store l i v).length = l.length := by
  unfold int4store
  simp [List.length_take, List.length_drop]
  omega

theorem take_int4store (l : List Nat) (i v k : Nat) (hk : k ≤ i) (hl : i ≤ l.length) :
    (int4store l i v).take k = l.take k := by
  unfold int4store
  rw [List.take_append_of_le_length (by simp [List.length_take]; omega),
    List.take_append_of_le_length (by simp [List.length_take]; omega), List.take_take]
  congr 1
  omega

theorem drop_int4store (l : List Nat) (i v k : Nat) (hk : i + 4 ≤ k)
    (hl : i + 4 ≤ l.length) :
    (int4store l i v).drop k = l.drop k := by
  unfold int4store
  rw [List.drop_append_eq_append_drop, List.drop_append_eq_append_drop]
  have h1 : (l.take i).drop k = [] :=
    List.drop_of_length_le (by simp [List.length_take]; omega)
  have h2 : ([v % 256, v / 256 % 256, v / 65536 % 256, v / 16777216 % 256] :
      List Nat).drop (k - (l.take i).length) = [] :=
    List.drop_of_length_le (by simp [List.length_take]; omega)
  rw [h1, h2, List.drop_drop]
  simp [List.length_take]
  congr 1
  omega

theorem int4store_take (l : List Nat) (i v k : Nat) (hk : i + 4 ≤ k)
    (hl : i + 4 ≤ l.length) :
    int4store (l.take k) i v = (int4store l i v).take k := by
  unfold int4store
  rw [List.take_take, Nat.min_eq_left (by omega), List.drop_take]
  rw [List.take_append_eq_append_take]
  rw [List.take_of_length_le (l := l.take i ++ [v % 256, v / 256 % 256, v / 65536 % 256,
    v / 16777216 % 256]) (by simp [List.length_take]; omega)]
  have hb : (l.take i ++ [v % 256, v / 256 % 256, v / 65536 % 256,
      v / 16777216 % 256] : List Nat).length = i + 4 := by
    simp [List.length_take]
    omega
  rw [hb]

theorem int4store_append_left (l m : List Nat) (i v : Nat) (h : i + 4 ≤ l.length) :
    int4store (l ++ m) i v = int4store l i v ++ m := by
  unfold int4store
  rw [List.take_append_of_le_length (by omega),
    List.drop_append_of_le_length (by omega)]
  simp

theorem int4store_append_right (l m : List Nat) (i v : Nat) :
    int4store (l ++ m) (l.length + i) v = l ++ int4store m i v := by
  unfold int4store
  have h4 : l.length + i + 4 = l.length + (i + 4) := by omega
  rw [List.take_append, h4, List.drop_append]
  simp

theorem uint4korr_int4store_before (l : List Nat) (i v j : Nat) (hj : j + 4 ≤ i)
    (hl : i ≤ l.length) :
    uint4korr (int4store l i v) j = uint4korr l j := by
  have h1 : uint4korr ((int4store l i v).take i) j = uint4korr (int4store l i v) j :=
    uint4korr_take _ i j (by omega)
  rw [← h1, take_int4store l i v i (Nat.le_refl i) hl, uint4korr_take l i j (by omega)]

/-! ### Per-event and per-stream facts about the rewrite -/

theorem fix_end_log_pos_length (g : Nat) (ev : List Nat) (h : WFEvent ev) :
    (fix_end_log_pos g ev).length = ev.length := by
  have h19 := h.1
  unfold LOG_EVENT_HEADER_LEN at h19
  exact length_int4store ev LOG_POS_OFFSET _ (by unfold LOG_POS_OFFSET; omega)

theorem fix_end_log_pos_take (g : Nat) (ev : List Nat) (h : WFEvent ev) :
    (fix_end_log_pos g ev).take LOG_POS_OFFSET = ev.take LOG_POS_OFFSET := by
  have h19 := h.1
  unfold LOG_EVENT_HEADER_LEN at h19
  exact take_int4store ev LOG_POS_OFFSET _ LOG_POS_OFFSET (Nat.le_refl _)
    (by unfold LOG_POS_OFFSET; omega)

theorem fix_end_log_pos_drop (g : Nat) (ev : List Nat) (k : Nat) (h : WFEvent ev)
    (hk : LOG_POS_OFFSET + 4 ≤ k) :
    (fix_end_log_pos g ev).drop k = ev.drop k := by
  have h19 := h.1
  unfold LOG_EVENT_HEADER_LEN at h19
  exact drop_int4store ev LOG_POS_OFFSET _ k hk (by unfold LOG_POS_OFFSET; omega)

theorem fix_end_log_pos_elen (g : Nat) (ev : List Nat) (h : WFEvent ev) :
    uint4korr (fix_end_log_pos g ev) EVENT_LEN_OFFSET = ev.length := by
  have h19 := h.1
  unfold LOG_EVENT_HEADER_LEN at h19
  unfold fix_end_log_pos
  rw [uint4korr_int4store_before ev LOG_POS_OFFSET _ EVENT_LEN_OFFSET
    (by unfold EVENT_LEN_OFFSET LOG_POS_OFFSET; omega)
    (by unfold LOG_POS_OFFSET; omega)]
  exact h.2

/-- The rewritten form of a whole buffered group of events. -/
def rwFlat (g : Nat) (evs : List (List Nat)) : List Nat :=
  (evs.map (fix_end_log_pos g)).flatten

theorem rwFlat_nil (g : Nat) : rwFlat g [] = [] := rfl

theorem rwFlat_cons (g : Nat) (ev : List Nat) (evs : List (List Nat)) :
    rwFlat g (ev :: evs) = fix_end_log_pos g ev ++ rwFlat g evs := by
  simp [rwFlat]

theorem rwFlat_append (g : Nat) (a b : List (List Nat)) :
    rwFlat g (a ++ b) = rwFlat g a ++ rwFlat g b := by
  simp [rwFlat]

theorem rwFlat_length (g : Nat) (evs : List (List Nat))
    (h : ∀ ev ∈ evs, WFEvent ev) :
    (rwFlat g evs).length = evs.flatten.length := by
  induction evs with
  | nil => rfl
  | cons ev evs ih =>
    rw [rwFlat_cons]
    simp only [List.flatten_cons, List.length_append]
    rw [fix_end_log_pos_length g ev (h ev (by simp)),
      ih (fun e he => h e (by simp [he]))]

/-! ### Correctness of the inner header loop -/

theorem write_cache_hdrs_succ (g fuel : Nat) (seg : List Nat) (hdrOffs : Nat) :
    write_cache_hdrs g (fuel + 1) seg hdrOffs =
      if hdrOffs < seg.length then
        if seg.length < hdrOffs + LOG_EVENT_HEADER_LEN then
          some (seg, hdrOffs, hdrOffs, seg.length - hdrOffs,
                (seg.drop hdrOffs).take (seg.length - hdrOffs))
        else
          write_cache_hdrs g fuel
            (int4store seg (hdrOffs + LOG_POS_OFFSET)
              ((uint4korr seg (hdrOffs + LOG_POS_OFFSET) + g) % two32))
            ((hdrOffs + uint4korr
                (int4store seg (hdrOffs + LOG_POS_OFFSET)
                  ((uint4korr seg (hdrOffs + LOG_POS_OFFSET) + g) % two32))
                (hdrOffs + EVENT_LEN_OFFSET)) % two32)
      else some (seg, seg.length, hdrOffs, 0, []) := rfl

/-- Processing one full in-segment event header: the loop patches the
`end_log_pos` field of the event starting at the current header offset and
jumps to the next header.  `tail` (the unprocessed part of the segment) is
a ≥ 19-byte prefix of `ev ++ rest`. -/
theorem write_cache_hdrs_step_full (g f : Nat) (front tail future ev rest : List Nat)
    (hWFev : WFEvent ev)
    (h19 : LOG_EVENT_HEADER_LEN ≤ tail.length)
    (heq : tail ++ future = ev ++ rest)
    (hbound : front.length + ev.length < two32) :
    write_cache_hdrs g (f + 1) (front ++ tail) front.length =
      write_cache_hdrs g f
        (front ++ (fix_end_log_pos g ev ++ rest).take tail.length)
        (front.length + ev.length) := by
  have h19' : (19 : Nat) ≤ tail.length := h19
  have h19ev : (19 : Nat) ≤ ev.length := hWFev.1
  have htake : tail = (ev ++ rest).take tail.length := by
    rw [← heq, List.take_append_of_le_length (Nat.le_refl _), List.take_length]
  rw [write_cache_hdrs_succ]
  rw [if_pos (by simp only [List.length_append]; omega)]
  rw [if_neg (by simp only [List.length_append, LOG_EVENT_HEADER_LEN]; omega)]
  have hu13 : uint4korr (front ++ tail) (front.length + LOG_POS_OFFSET)
      = uint4korr ev LOG_POS_OFFSET := by
    rw [uint4korr_append_right, htake,
      uint4korr_take _ _ _ (by unfold LOG_POS_OFFSET; omega),
      uint4korr_append_left _ _ _ (by unfold LOG_POS_OFFSET; omega)]
  rw [hu13]
  have hstore : int4store (front ++ tail) (front.length + LOG_POS_OFFSET)
      ((uint4korr ev LOG_POS_OFFSET + g) % two32)
      = front ++ (fix_end_log_pos g ev ++ rest).take tail.length := by
    rw [int4store_append_right]
    congr 1
    rw [htake,
      int4store_take _ _ _ _ (by unfold LOG_POS_OFFSET; omega)
        (by simp only [List.length_append]; unfold LOG_POS_OFFSET; omega),
      int4store_append_left _ _ _ _ (by unfold LOG_POS_OFFSET; omega)]
    have hlen : (List.take tail.length (ev ++ rest)).length = tail.length := by
      have hlen2 : tail.length + future.length = ev.length + rest.length := by
        have h := congrArg List.length heq
        simpa using h
      rw [List.length_take, List.length_append]
      omega
    rw [hlen]
    rfl
  rw [hstore]
  have helen : uint4korr (front ++ (fix_end_log_pos g ev ++ rest).take tail.length)
      (front.length + EVENT_LEN_OFFSET) = ev.length := by
    rw [uint4korr_append_right,
      uint4korr_take _ _ _ (by unfold EVENT_LEN_OFFSET; omega),
      uint4korr_append_left _ _ _
        (by rw [fix_end_log_pos_length g ev hWFev]; unfold EVENT_LEN_OFFSET; omega),
      fix_end_log_pos_elen g ev hWFev]
  rw [helen, Nat.mod_eq_of_lt hbound]



set_option maxHeartbeats 800000 in
theorem write_cache_hdrs_spec (g : Nat) (evsRem : List (List Nat)) :
    ∀ (front tail future : List Nat) (fuel : Nat),
      (∀ ev ∈ evsRem, WFEvent ev) →
      tail ++ future = evsRem.flatten →
      front.length + evsRem.flatten.length < two32 →
      tail.length < fuel →
      ∃ evsDone evsLeft : List (List Nat),
        evsRem = evsDone ++ evsLeft ∧
        ((tail.length ≤ evsDone.flatten.length ∧
          write_cache_hdrs g fuel (front ++ tail) front.length =
            some (front ++ (rwFlat g evsDone).take tail.length,
                  front.length + tail.length,
                  front.length + evsDone.flatten.length, 0, []) ∧
          (rwFlat g evsDone).drop tail.length = evsDone.flatten.drop tail.length) ∨
        (∃ ev2 evsLeft2, evsLeft = ev2 :: evsLeft2 ∧
          evsDone.flatten.length < tail.length ∧
          tail.length < evsDone.flatten.length + LOG_EVENT_HEADER_LEN ∧
          write_cache_hdrs g fuel (front ++ tail) front.length =
            some (front ++ rwFlat g evsDone ++
                    ev2.take (tail.length - evsDone.flatten.length),
                  front.length + evsDone.flatten.length,
                  front.length + evsDone.flatten.length,
                  tail.length - evsDone.flatten.length,
                  ev2.take (tail.length - evsDone.flatten.length)))) := by
  induction evsRem with
  | nil =>
    intro front tail future fuel hwf htail hbound hfuel
    have htail0 : tail = [] := (List.append_eq_nil.mp (by simpa using htail)).1
    subst htail0
    rcases fuel with _ | f
    · omega
    refine ⟨[], [], rfl, Or.inl ⟨by simp, ?_, by simp [rwFlat_nil]⟩⟩
    rw [write_cache_hdrs_succ, if_neg (by simp)]
    simp [rwFlat_nil]
  | cons ev evsRem2 ih =>
    intro front tail future fuel hwf htail hbound hfuel
    have hWFev : WFEvent ev := hwf ev (by simp)
    have h19ev : (19 : Nat) ≤ ev.length := hWFev.1
    rcases fuel with _ | f
    · omega
    by_cases htail0 : tail = []
    · subst htail0
      refine ⟨[], ev :: evsRem2, rfl, Or.inl ⟨by simp, ?_, by simp [rwFlat_nil]⟩⟩
      rw [write_cache_hdrs_succ, if_neg (by simp)]
      simp [rwFlat_nil]
    have htpos : 0 < tail.length := List.length_pos.mpr htail0
    have htail2 : tail ++ future = ev ++ evsRem2.flatten := by
      simpa using htail
    have hlen2 : tail.length + future.length = ev.length + evsRem2.flatten.length := by
      have h := congrArg List.length htail2
      simpa using h
    by_cases hsplit : tail.length < 19
    · -- the header at the current offset is split by the segment boundary
      have htakeev : tail = ev.take tail.length := by
        have h1 : tail = (ev ++ evsRem2.flatten).take tail.length := by
          rw [← htail2, List.take_append_of_le_length (Nat.le_refl _), List.take_length]
        conv_lhs => rw [h1]
        rw [List.take_append_of_le_length (by omega)]
      refine ⟨[], ev :: evsRem2, rfl, Or.inr ⟨ev, evsRem2, rfl, by simpa using htpos,
        by simp [LOG_EVENT_HEADER_LEN]; omega, ?_⟩⟩
      rw [write_cache_hdrs_succ,
        if_pos (by simp only [List.length_append]; omega),
        if_pos (by simp only [List.length_append, LOG_EVENT_HEADER_LEN]; omega)]
      have hd : (front ++ tail).drop front.length = tail := List.drop_left front tail
      have hl : (front ++ tail).length - front.length = tail.length := by
        simp
      rw [hd, hl, List.take_length]
      simp only [rwFlat_nil, List.flatten_nil, List.length_nil, Nat.sub_zero,
        List.append_nil, Nat.add_zero]
      rw [← htakeev]
    · -- a full event header is available at the current offset
      push_neg at hsplit
      have hbound1 : front.length + ev.length < two32 := by
        simp only [List.flatten_cons, List.length_append] at hbound
        omega
      rw [write_cache_hdrs_step_full g f front tail future ev evsRem2.flatten hWFev
        (by unfold LOG_EVENT_HEADER_LEN; omega) htail2 hbound1]
      have hfixlen : (fix_end_log_pos g ev).length = ev.length :=
        fix_end_log_pos_length g ev hWFev
      by_cases hevtail : tail.length < ev.length
      · -- the event is longer than the rest of the segment: the loop exits
        rcases f with _ | f2
        · omega
        have hlenX : ((fix_end_log_pos g ev ++ evsRem2.flatten).take tail.length).length
            = tail.length := by
          rw [List.length_take, List.length_append, hfixlen]
          omega
        rw [write_cache_hdrs_succ, if_neg (by rw [List.length_append, hlenX]; omega)]
        have htt : (fix_end_log_pos g ev ++ evsRem2.flatten).take tail.length
            = (fix_end_log_pos g ev).take tail.length := by
          rw [List.take_append_of_le_length (by rw [hfixlen]; omega)]
        refine ⟨[ev], evsRem2, rfl, Or.inl ⟨by simp; omega, ?_, ?_⟩⟩
        · rw [htt]
          have hc1 : front ++ (rwFlat g [ev]).take tail.length
              = front ++ (fix_end_log_pos g ev).take tail.length := by
            rw [rwFlat_cons, rwFlat_nil, List.append_nil]
          have hc2 : front.length + tail.length
              = (front ++ (fix_end_log_pos g ev).take tail.length).length := by
            rw [List.length_append, List.length_take, hfixlen]
            omega
          have hc3 : front.length + ([ev] : List (List Nat)).flatten.length
              = front.length + ev.length := by
            simp
          rw [hc1, hc2, hc3]
        · simp only [rwFlat_cons, rwFlat_nil, List.append_nil, List.flatten_cons,
            List.flatten_nil]
          exact fix_end_log_pos_drop g ev tail.length hWFev
            (by unfold LOG_POS_OFFSET; omega)
      · -- the event ends inside the segment: consume it and recurse
        push_neg at hevtail
        have hXsplit : (fix_end_log_pos g ev ++ evsRem2.flatten).take tail.length
            = fix_end_log_pos g ev ++ evsRem2.flatten.take (tail.length - ev.length) := by
          rw [List.take_append_eq_append_take,
            List.take_of_length_le (by rw [hfixlen]; omega), hfixlen]
        have hflen : (front ++ fix_end_log_pos g ev).length = front.length + ev.length := by
          rw [List.length_append, hfixlen]
        have ht3len : (evsRem2.flatten.take (tail.length - ev.length)).length
            = tail.length - ev.length := by
          rw [List.length_take]
          omega
        have happly := ih (front ++ fix_end_log_pos g ev)
          (evsRem2.flatten.take (tail.length - ev.length))
          (evsRem2.flatten.drop (tail.length - ev.length)) f
          (fun e he => hwf e (by simp [he]))
          (by rw [List.take_append_drop])
          (by rw [hflen]
              simp only [List.flatten_cons, List.length_append] at hbound
              omega)
          (by rw [ht3len]; omega)
        obtain ⟨evsDone2, evsLeft2, hsplit2, hcase⟩ := happly
        have hgoalrw : front ++ (fix_end_log_pos g ev ++ evsRem2.flatten).take tail.length
            = front ++ fix_end_log_pos g ev
                ++ evsRem2.flatten.take (tail.length - ev.length) := by
          rw [hXsplit, List.append_assoc]
        rw [hgoalrw]
        rcases hcase with ⟨hA1, hA2, hA3⟩ | ⟨ev2, evsLeft3, hB0, hB1, hB2, hB3⟩
        · rw [ht3len] at hA1 hA3
          rw [ht3len, hflen] at hA2
          refine ⟨ev :: evsDone2, evsLeft2, by rw [hsplit2, List.cons_append],
            Or.inl ⟨?_, ?_, ?_⟩⟩
          · simp only [List.flatten_cons, List.length_append]
            omega
          · rw [hA2]
            have hc1 : front ++ (rwFlat g (ev :: evsDone2)).take tail.length
                = front ++ fix_end_log_pos g ev
                    ++ (rwFlat g evsDone2).take (tail.length - ev.length) := by
              rw [rwFlat_cons, List.take_append_eq_append_take,
                List.take_of_length_le (by rw [hfixlen]; omega), hfixlen,
                List.append_assoc]
            have hc2 : front.length + tail.length
                = front.length + ev.length + (tail.length - ev.length) := by
              omega
            have hc3 : front.length + (ev :: evsDone2).flatten.length
                = front.length + ev.length + evsDone2.flatten.length := by
              simp only [List.flatten_cons, List.length_append]
              omega
            rw [hc1, hc2, hc3]
          · have hdropfix : (fix_end_log_pos g ev).drop tail.length = [] :=
              List.drop_of_length_le (by rw [hfixlen]; omega)
            have hdropev : ev.drop tail.length = [] :=
              List.drop_of_length_le (by omega)
            rw [rwFlat_cons, List.flatten_cons, List.drop_append_eq_append_drop,
              List.drop_append_eq_append_drop, hdropfix, hdropev, hfixlen]
            simpa using hA3
        · rw [ht3len] at hB1 hB2 hB3
          rw [hflen] at hB3
          refine ⟨ev :: evsDone2, ev2 :: evsLeft3,
            by rw [hsplit2, hB0, List.cons_append], Or.inr ⟨ev2, evsLeft3, rfl, ?_, ?_, ?_⟩⟩
          · simp only [List.flatten_cons, List.length_append]
            omega
          · simp only [List.flatten_cons, List.length_append, LOG_EVENT_HEADER_LEN] at hB2 ⊢
            omega
          · rw [hB3]
            have hD : tail.length - (ev :: evsDone2).flatten.length
                = tail.length - ev.length - evsDone2.flatten.length := by
              simp only [List.flatten_cons, List.length_append]
              omega
            have hc1 : front ++ rwFlat g (ev :: evsDone2)
                  ++ ev2.take (tail.length - (ev :: evsDone2).flatten.length)
                = front ++ fix_end_log_pos g ev ++ rwFlat g evsDone2
                  ++ ev2.take (tail.length - ev.length - evsDone2.flatten.length) := by
              rw [rwFlat_cons, hD, ← List.append_assoc]
            have hc2 : front.length + (ev :: evsDone2).flatten.length
                = front.length + ev.length + evsDone2.flatten.length := by
              simp only [List.flatten_cons, List.length_append]
              omega
            rw [hc1, hc2, hD]



theorem take_append_ge (l m : List Nat) (n : Nat) (h : l.length ≤ n) :
    (l ++ m).take n = l ++ m.take (n - l.length) := by
  rw [List.take_append_eq_append_take, List.take_of_length_le h]

theorem drop_append_ge (l m : List Nat) (n : Nat) (h : l.length ≤ n) :
    (l ++ m).drop n = m.drop (n - l.length) := by
  rw [List.drop_append_eq_append_drop, List.drop_of_length_le h, List.nil_append]

/-- The invariant relating the loop state of `write_cache` between outer
iterations to the byte stream: either no header is pending (`carry = 0`),
the bytes already written are the rewritten stream up to a point that lies
`hdr_offs` bytes (the unread payload tail `pay` of the last started event)
before the next event boundary; or a header is split (`carry > 0`), the
saved bytes are the raw first `carry` bytes of the next event `ev`, and the
output ends exactly at `ev`'s start. -/
def WCInv (g : Nat) (evs : List (List Nat)) (segsRem : List (List Nat))
    (st : WCState) : Prop :=
  ∃ evsDone evsRem : List (List Nat),
    evs = evsDone ++ evsRem ∧
    ((st.carry = 0 ∧ st.header = [] ∧
      (∃ pay : List Nat,
        st.hdrOffs = pay.length ∧
        st.out ++ pay ++ rwFlat g evsRem = rwFlat g evs ∧
        segsRem.flatten = pay ++ evsRem.flatten)) ∨
     (∃ ev evsRem2, evsRem = ev :: evsRem2 ∧
        0 < st.carry ∧ st.carry < LOG_EVENT_HEADER_LEN ∧
        st.header = ev.take st.carry ∧
        st.out ++ rwFlat g evsRem = rwFlat g evs ∧
        segsRem.flatten = ev.drop st.carry ++ evsRem2.flatten))

set_option maxHeartbeats 1600000 in
/-- One outer iteration preserves the invariant. -/
theorem write_cache_seg_inv (g : Nat) (evs : List (List Nat)) (seg : List Nat)
    (segsRest : List (List Nat)) (st : WCState)
    (hwf : ∀ ev ∈ evs, WFEvent ev)
    (hbound : evs.flatten.length < two32)
    (hseglen : segsRest ≠ [] → LOG_EVENT_HEADER_LEN ≤ seg.length)
    (hinv : WCInv g evs (seg :: segsRest) st) :
    ∃ st', write_cache_seg g st seg = some st' ∧ WCInv g evs segsRest st' := by
  obtain ⟨evsDone, evsRem, hsplitEvs, hcase⟩ := hinv
  have hwfRem : ∀ ev ∈ evsRem, WFEvent ev := by
    intro e he
    exact hwf e (by rw [hsplitEvs]; exact List.mem_append_right _ he)
  have hlenRem : (rwFlat g evsRem).length = evsRem.flatten.length :=
    rwFlat_length g evsRem hwfRem
  have hlenEvs : (rwFlat g evs).length = evs.flatten.length :=
    rwFlat_length g evs hwf
  rcases hcase with ⟨hcarry, hheader, pay, hpay, hout, hflat⟩ |
    ⟨ev, evsRem2, hevsRem, hcpos, hclt, hheader, hout, hflat⟩
  · -- no pending split header
    have hflat1 : seg ++ segsRest.flatten = pay ++ evsRem.flatten := by
      have h := hflat
      rw [List.flatten_cons] at h
      exact h
    have hpaybound : pay.length + evsRem.flatten.length < two32 := by
      have h := congrArg List.length hout
      simp only [List.length_append] at h
      rw [hlenRem] at h
      omega
    simp only [write_cache_seg, hcarry, Nat.lt_irrefl, if_false]
    by_cases hps : seg.length ≤ pay.length
    · -- the whole segment lies inside the unread payload tail
      have hsegpay : seg = pay.take seg.length := by
        have h1 : (seg ++ segsRest.flatten).take seg.length
            = (pay ++ evsRem.flatten).take seg.length := by rw [hflat1]
        rw [List.take_append_of_le_length (Nat.le_refl _), List.take_length,
          List.take_append_of_le_length hps] at h1
        exact h1
      have hpayeq : pay = seg ++ pay.drop seg.length := by
        conv_lhs => rw [← List.take_append_drop seg.length pay]
        rw [← hsegpay]
      have hinner : write_cache_hdrs g (seg.length + 1) seg st.hdrOffs
          = some (seg, seg.length, st.hdrOffs, 0, []) := by
        rw [write_cache_hdrs_succ, if_neg (by rw [hpay]; omega)]
      rw [hinner, hpay]
      refine ⟨_, rfl, evsDone, evsRem, hsplitEvs, Or.inl ⟨rfl, rfl, pay.drop seg.length,
        ?_, ?_, ?_⟩⟩
      · simp only [List.length_drop]
      · simp only [List.take_length, List.append_nil]
        rw [← hout]
        conv_rhs => rw [hpayeq]
        simp [List.append_assoc]
      · have h2 : (seg ++ segsRest.flatten).drop seg.length
            = (pay ++ evsRem.flatten).drop seg.length := by rw [hflat1]
        rw [List.drop_left, List.drop_append_of_le_length hps] at h2
        exact h2
    · -- the segment extends past the payload tail: headers to process
      push_neg at hps
      have hsegdec : seg = pay ++ seg.drop pay.length := by
        have h1 : (seg ++ segsRest.flatten).take pay.length
            = (pay ++ evsRem.flatten).take pay.length := by rw [hflat1]
        rw [List.take_append_of_le_length (by omega),
          List.take_append_of_le_length (Nat.le_refl _), List.take_length] at h1
        conv_lhs => rw [← List.take_append_drop pay.length seg, h1]
      have htail1 : seg.drop pay.length ++ segsRest.flatten = evsRem.flatten := by
        have h2 : (seg ++ segsRest.flatten).drop pay.length
            = (pay ++ evsRem.flatten).drop pay.length := by rw [hflat1]
        rw [List.drop_append_of_le_length (by omega), List.drop_left] at h2
        exact h2
      have hlentail : (seg.drop pay.length).length = seg.length - pay.length := by
        simp
      obtain ⟨evsDone2, evsLeft2, hsplit2, hcase2⟩ :=
        write_cache_hdrs_spec g evsRem pay (seg.drop pay.length) segsRest.flatten
          (seg.length + 1) hwfRem htail1 (by omega) (by rw [hlentail]; omega)
      have hwfDone2 : ∀ e ∈ evsDone2, WFEvent e := by
        intro e he
        exact hwfRem e (by rw [hsplit2]; exact List.mem_append_left _ he)
      have hD2 : (rwFlat g evsDone2).length = evsDone2.flatten.length :=
        rwFlat_length g evsDone2 hwfDone2
      rw [hpay]
      nth_rewrite 2 [hsegdec]
      rcases hcase2 with ⟨hA1, hA2, hA3⟩ | ⟨ev2, evsLeft3, hB0, hB1, hB2, hB3⟩
      · -- the inner loop consumed the whole segment with no split header
        rw [hA2]
        have hTake : (pay ++ (rwFlat g evsDone2).take (seg.drop pay.length).length).take
            (pay.length + (seg.drop pay.length).length)
            = pay ++ (rwFlat g evsDone2).take (seg.drop pay.length).length := by
          apply List.take_of_length_le
          simp only [List.length_append, List.length_take]
          omega
        refine ⟨_, rfl, evsDone ++ evsDone2, evsLeft2, by rw [hsplitEvs, hsplit2,
          List.append_assoc], Or.inl ⟨rfl, rfl,
          evsDone2.flatten.drop (seg.drop pay.length).length, ?_, ?_, ?_⟩⟩
        · simp only [List.length_drop]
          omega
        · simp only [hTake]
          rw [← hA3]
          have hRw : rwFlat g evsRem = rwFlat g evsDone2 ++ rwFlat g evsLeft2 := by
            rw [hsplit2, rwFlat_append]
          rw [← hout, hRw]
          conv_rhs => rw [← List.take_append_drop (seg.drop pay.length).length
            (rwFlat g evsDone2)]
          simp [List.append_assoc]
        · have h3 : (seg.drop pay.length ++ segsRest.flatten).drop
              (seg.drop pay.length).length
              = (evsDone2.flatten ++ evsLeft2.flatten).drop (seg.drop pay.length).length := by
            rw [htail1, hsplit2, List.flatten_append]
          rw [List.drop_left, List.drop_append_of_le_length hA1] at h3
          exact h3
      · -- the inner loop stopped at a header split across the boundary
        rw [hB3]
        unfold LOG_EVENT_HEADER_LEN at hB2
        have hwfEv2 : WFEvent ev2 := by
          apply hwfRem
          rw [hsplit2, hB0]
          exact List.mem_append_right _ (by simp)
        have h19ev2 : (19 : Nat) ≤ ev2.length := hwfEv2.1
        have hTakeB : (pay ++ rwFlat g evsDone2 ++
              ev2.take ((seg.drop pay.length).length - evsDone2.flatten.length)).take
              (pay.length + evsDone2.flatten.length)
            = pay ++ rwFlat g evsDone2 := by
          rw [List.take_append_of_le_length (by simp [hD2])]
          apply List.take_of_length_le
          simp [hD2]
        refine ⟨_, rfl, evsDone ++ evsDone2, ev2 :: evsLeft3, by rw [hsplitEvs, hsplit2,
          hB0, List.append_assoc], Or.inr ⟨ev2, evsLeft3, rfl, by dsimp only; omega,
            ?_, ?_, ?_, ?_⟩⟩
        · dsimp only
          unfold LOG_EVENT_HEADER_LEN
          omega
        · rfl
        · dsimp only
          simp only [hTakeB]
          rw [← hout, hsplit2, hB0, rwFlat_append, rwFlat_cons]
          simp [List.append_assoc]
        · dsimp only
          have h3 : (seg.drop pay.length ++ segsRest.flatten).drop
              (seg.drop pay.length).length
              = (evsDone2.flatten ++ (ev2 ++ evsLeft3.flatten)).drop
                  (seg.drop pay.length).length := by
            rw [htail1, hsplit2, hB0, List.flatten_append, List.flatten_cons]
          rw [List.drop_left] at h3
          rw [h3, drop_append_ge _ _ _ (by omega),
            List.drop_append_of_le_length (by omega)]
  · -- a split header is pending from the previous segment
    have hWFev : WFEvent ev := hwfRem ev (by rw [hevsRem]; simp)
    have h19ev : (19 : Nat) ≤ ev.length := hWFev.1
    have hfixlen : (fix_end_log_pos g ev).length = ev.length :=
      fix_end_log_pos_length g ev hWFev
    have hclt19 : st.carry < 19 := by
      unfold LOG_EVENT_HEADER_LEN at hclt
      exact hclt
    have hflat1 : seg ++ segsRest.flatten = ev.drop st.carry ++ evsRem2.flatten := by
      have h := hflat
      rw [List.flatten_cons] at h
      exact h
    have hflatlen : seg.length + segsRest.flatten.length
        = (ev.length - st.carry) + evsRem2.flatten.length := by
      have h := congrArg List.length hflat1
      simp only [List.length_append, List.length_drop] at h
      omega
    have hevbound : ev.length + evsRem2.flatten.length < two32 := by
      have h := congrArg List.length hout
      simp only [List.length_append] at h
      rw [hlenRem] at h
      have h2 : evsRem.flatten.length = ev.length + evsRem2.flatten.length := by
        rw [hevsRem, List.flatten_cons, List.length_append]
      omega
    have hseg19c : 19 - st.carry ≤ seg.length := by
      by_cases hrest : segsRest = []
      · subst hrest
        simp only [List.flatten_nil, List.length_nil] at hflatlen
        omega
      · have h := hseglen hrest
        unfold LOG_EVENT_HEADER_LEN at h
        omega
    have hsegtake : seg.take (19 - st.carry) = (ev.drop st.carry).take (19 - st.carry) := by
      have h1 : (seg ++ segsRest.flatten).take (19 - st.carry)
          = (ev.drop st.carry ++ evsRem2.flatten).take (19 - st.carry) := by rw [hflat1]
      rw [List.take_append_of_le_length hseg19c,
        List.take_append_of_le_length (by simp only [List.length_drop]; omega)] at h1
      exact h1
    have hhdr : st.header ++ seg.take (LOG_EVENT_HEADER_LEN - st.carry) = ev.take 19 := by
      unfold LOG_EVENT_HEADER_LEN
      rw [hheader, hsegtake, ← List.take_add]
      congr 1
      omega
    simp only [write_cache_seg, if_pos hcpos]
    rw [hhdr]
    have hu13 : uint4korr (ev.take 19) LOG_POS_OFFSET = uint4korr ev LOG_POS_OFFSET :=
      uint4korr_take ev 19 _ (by unfold LOG_POS_OFFSET; omega)
    rw [hu13]
    have hhdr2 : int4store (ev.take 19) LOG_POS_OFFSET
        ((uint4korr ev LOG_POS_OFFSET + g) % two32) = (fix_end_log_pos g ev).take 19 := by
      rw [int4store_take ev LOG_POS_OFFSET _ 19 (by unfold LOG_POS_OFFSET; omega)
        (by unfold LOG_POS_OFFSET; omega)]
      rfl
    rw [hhdr2]
    have hu9 : uint4korr ((fix_end_log_pos g ev).take 19) EVENT_LEN_OFFSET = ev.length := by
      rw [uint4korr_take _ _ _ (by unfold EVENT_LEN_OFFSET; omega),
        fix_end_log_pos_elen g ev hWFev]
    rw [hu9]
    have hoffs : (ev.length + two32 - st.carry) % two32 = ev.length - st.carry := by
      have h1 : ev.length + two32 - st.carry = two32 + (ev.length - st.carry) := by omega
      rw [h1, Nat.add_mod_left, Nat.mod_eq_of_lt (by omega)]
    rw [hoffs]
    have hemit1 : ((fix_end_log_pos g ev).take 19).take st.carry
        = (fix_end_log_pos g ev).take st.carry := by
      rw [List.take_take, Nat.min_eq_left (by omega)]
    rw [hemit1]
    have hlenhdr2 : (((fix_end_log_pos g ev).take 19).drop st.carry).length
        = 19 - st.carry := by
      simp only [List.length_drop, List.length_take]
      omega
    have hsegeq : seg = (ev.drop st.carry ++ evsRem2.flatten).take seg.length := by
      have h1 : (seg ++ segsRest.flatten).take seg.length
          = (ev.drop st.carry ++ evsRem2.flatten).take seg.length := by rw [hflat1]
      rw [List.take_append_of_le_length (Nat.le_refl _), List.take_length] at h1
      exact h1
    have hsegdrop : seg.drop (LOG_EVENT_HEADER_LEN - st.carry)
        = (ev.drop 19 ++ evsRem2.flatten).take (seg.length - (19 - st.carry)) := by
      unfold LOG_EVENT_HEADER_LEN
      conv_lhs => rw [hsegeq]
      rw [List.drop_take,
        List.drop_append_of_le_length (by simp only [List.length_drop]; omega),
        List.drop_drop, (by omega : st.carry + (19 - st.carry) = 19)]
    rw [hsegdrop]
    have hfixsplit : (fix_end_log_pos g ev).drop st.carry
        = ((fix_end_log_pos g ev).take 19).drop st.carry ++ ev.drop 19 := by
      conv_lhs => rw [← List.take_append_drop 19 (fix_end_log_pos g ev)]
      rw [List.drop_append_of_le_length (by simp only [List.length_take]; omega),
        fix_end_log_pos_drop g ev 19 hWFev (by unfold LOG_POS_OFFSET; omega)]
    by_cases hbig : seg.length < ev.length - st.carry
    · -- the event continues past this segment: the loop exits immediately
      have hm : seg.length - (19 - st.carry) ≤ ev.length - 19 := by omega
      have hsegdropbig : (ev.drop 19 ++ evsRem2.flatten).take (seg.length - (19 - st.carry))
          = (ev.drop 19).take (seg.length - (19 - st.carry)) :=
        List.take_append_of_le_length (by simp only [List.length_drop]; omega)
      rw [hsegdropbig]
      have hlenseg1 : (((fix_end_log_pos g ev).take 19).drop st.carry
          ++ (ev.drop 19).take (seg.length - (19 - st.carry))).length = seg.length := by
        simp only [List.length_append, hlenhdr2, List.length_take, List.length_drop]
        omega
      rw [write_cache_hdrs_succ, if_neg (by rw [hlenseg1]; omega)]
      refine ⟨_, rfl, evsDone ++ [ev], evsRem2,
        by rw [hsplitEvs, hevsRem]; exact List.append_cons evsDone ev evsRem2,
        Or.inl ⟨rfl, rfl, ev.drop (st.carry + seg.length), ?_, ?_, ?_⟩⟩
      · dsimp only
        rw [hlenseg1]
        simp only [List.length_drop]
        omega
      · dsimp only
        rw [List.take_length, ← hout, hevsRem, rwFlat_cons]
        have hdecomp : (fix_end_log_pos g ev).take st.carry
            ++ (((fix_end_log_pos g ev).take 19).drop st.carry
                ++ (ev.drop 19).take (seg.length - (19 - st.carry)))
            ++ ev.drop (st.carry + seg.length) = fix_end_log_pos g ev := by
          have hx : (ev.drop 19).drop (seg.length - (19 - st.carry))
              = ev.drop (st.carry + seg.length) := by
            rw [List.drop_drop]
            congr 1
            omega
          conv_rhs => rw [← List.take_append_drop st.carry (fix_end_log_pos g ev),
            hfixsplit, ← List.take_append_drop (seg.length - (19 - st.carry)) (ev.drop 19),
            hx]
          simp [List.append_assoc]
        conv_rhs => rw [← hdecomp]
        simp [List.append_assoc]
      · dsimp only
        have h2 : (seg ++ segsRest.flatten).drop seg.length
            = (ev.drop st.carry ++ evsRem2.flatten).drop seg.length := by rw [hflat1]
        rw [List.drop_left,
          List.drop_append_of_le_length (by simp only [List.length_drop]; omega),
          List.drop_drop] at h2
        exact h2
    · -- the event ends inside this segment: process it and the following headers
      push_neg at hbig
      have hm2 : ev.length - 19 ≤ seg.length - (19 - st.carry) := by omega
      have hsegdropsmall : (ev.drop 19 ++ evsRem2.flatten).take (seg.length - (19 - st.carry))
          = ev.drop 19 ++ evsRem2.flatten.take (seg.length - (ev.length - st.carry)) := by
        rw [take_append_ge _ _ _ (by simp only [List.length_drop]; omega)]
        congr 2
        simp only [List.length_drop]
        omega
      rw [hsegdropsmall]
      have hseg1dec : ((fix_end_log_pos g ev).take 19).drop st.carry
            ++ (ev.drop 19 ++ evsRem2.flatten.take (seg.length - (ev.length - st.carry)))
          = (fix_end_log_pos g ev).drop st.carry
            ++ evsRem2.flatten.take (seg.length - (ev.length - st.carry)) := by
        rw [hfixsplit]
        simp [List.append_assoc]
      rw [hseg1dec]
      have hfrontlen : ((fix_end_log_pos g ev).drop st.carry).length
          = ev.length - st.carry := by
        simp only [List.length_drop, hfixlen]
      have ht4len : (evsRem2.flatten.take (seg.length - (ev.length - st.carry))).length
          = seg.length - (ev.length - st.carry) := by
        simp only [List.length_take]
        omega
      have hwfRem2 : ∀ e ∈ evsRem2, WFEvent e := by
        intro e he
        exact hwfRem e (by rw [hevsRem]; simp [he])
      obtain ⟨evsDone2, evsLeft2, hsplit2, hcase2⟩ :=
        write_cache_hdrs_spec g evsRem2 ((fix_end_log_pos g ev).drop st.carry)
          (evsRem2.flatten.take (seg.length - (ev.length - st.carry)))
          (evsRem2.flatten.drop (seg.length - (ev.length - st.carry)))
          (((fix_end_log_pos g ev).drop st.carry
            ++ evsRem2.flatten.take (seg.length - (ev.length - st.carry))).length + 1)
          hwfRem2 (by rw [List.take_append_drop])
          (by rw [hfrontlen]; omega)
          (by simp only [List.length_append]; omega)
      have hwfDone2 : ∀ e ∈ evsDone2, WFEvent e := by
        intro e he
        exact hwfRem2 e (by rw [hsplit2]; exact List.mem_append_left _ he)
      have hD2 : (rwFlat g evsDone2).length = evsDone2.flatten.length :=
        rwFlat_length g evsDone2 hwfDone2
      have hrestflat : segsRest.flatten
          = evsRem2.flatten.drop (seg.length - (ev.length - st.carry)) := by
        have h2 : (seg ++ segsRest.flatten).drop seg.length
            = (ev.drop st.carry ++ evsRem2.flatten).drop seg.length := by rw [hflat1]
        rw [List.drop_left,
          drop_append_ge _ _ _ (by simp only [List.length_drop]; omega)] at h2
        rw [h2]
        congr 1
        simp only [List.length_drop]
      rcases hcase2 with ⟨hA1, hA2, hA3⟩ | ⟨ev2, evsLeft3, hB0, hB1, hB2, hB3⟩
      · -- no split at the end of this segment
        rw [ht4len] at hA1 hA3
        rw [hfrontlen] at hA2
        rw [hA2]
        have hTake : ((fix_end_log_pos g ev).drop st.carry
              ++ (rwFlat g evsDone2).take
                  (evsRem2.flatten.take (seg.length - (ev.length - st.carry))).length).take
              (ev.length - st.carry
                + (evsRem2.flatten.take (seg.length - (ev.length - st.carry))).length)
            = (fix_end_log_pos g ev).drop st.carry
              ++ (rwFlat g evsDone2).take (seg.length - (ev.length - st.carry)) := by
          rw [ht4len]
          apply List.take_of_length_le
          simp only [List.length_append, List.length_take, List.length_drop, hfixlen]
          omega
        refine ⟨_, rfl, evsDone ++ (ev :: evsDone2), evsLeft2,
          by rw [hsplitEvs, hevsRem, hsplit2]; simp,
          Or.inl ⟨rfl, rfl,
            evsDone2.flatten.drop (seg.length - (ev.length - st.carry)), ?_, ?_, ?_⟩⟩
        · dsimp only
          rw [ht4len]
          simp only [List.length_drop]
          omega
        · dsimp only
          rw [hTake, ← hout]
          conv_rhs => rw [hevsRem, rwFlat_cons, hsplit2, rwFlat_append]
          rw [← hA3]
          have hfix2 : (fix_end_log_pos g ev).take st.carry
              ++ (fix_end_log_pos g ev).drop st.carry = fix_end_log_pos g ev :=
            List.take_append_drop st.carry (fix_end_log_pos g ev)
          conv_rhs => rw [← hfix2,
            ← List.take_append_drop (seg.length - (ev.length - st.carry)) (rwFlat g evsDone2)]
          simp [List.append_assoc]
          rw [← List.append_assoc, hfix2]
        · dsimp only
          rw [hrestflat, hsplit2, List.flatten_append,
            List.drop_append_of_le_length (by omega)]
      · -- the segment ends inside the header of a later event: a new split
        rw [ht4len] at hB1 hB2 hB3
        rw [hfrontlen] at hB3
        rw [hB3]
        unfold LOG_EVENT_HEADER_LEN at hB2
        have hwfEv2 : WFEvent ev2 := by
          apply hwfRem2
          rw [hsplit2, hB0]
          exact List.mem_append_right _ (by simp)
        have h19ev2 : (19 : Nat) ≤ ev2.length := hwfEv2.1
        have hTakeB : ((fix_end_log_pos g ev).drop st.carry ++ rwFlat g evsDone2
              ++ ev2.take (seg.length - (ev.length - st.carry) - evsDone2.flatten.length)).take
              (ev.length - st.carry + evsDone2.flatten.length)
            = (fix_end_log_pos g ev).drop st.carry ++ rwFlat g evsDone2 := by
          rw [List.take_append_of_le_length
            (by simp only [List.length_append, List.length_drop, hfixlen, hD2]; omega)]
          apply List.take_of_length_le
          simp only [List.length_append, List.length_drop, hfixlen, hD2]
          omega
        refine ⟨_, rfl, evsDone ++ (ev :: evsDone2), ev2 :: evsLeft3,
          by rw [hsplitEvs, hevsRem, hsplit2, hB0]; simp,
          Or.inr ⟨ev2, evsLeft3, rfl, by dsimp only; omega,
            by dsimp only; unfold LOG_EVENT_HEADER_LEN; omega, rfl, ?_, ?_⟩⟩
        · dsimp only
          rw [hTakeB, ← hout]
          conv_rhs => rw [hevsRem, rwFlat_cons, hsplit2, rwFlat_append, hB0]
          have hfix2 : (fix_end_log_pos g ev).take st.carry
              ++ (fix_end_log_pos g ev).drop st.carry = fix_end_log_pos g ev :=
            List.take_append_drop st.carry (fix_end_log_pos g ev)
          conv_rhs => rw [← hfix2]
          simp [List.append_assoc]
          rw [← List.append_assoc, hfix2]
        · dsimp only
          rw [hrestflat, hsplit2, hB0, List.flatten_append, List.flatten_cons,
            drop_append_ge _ _ _ (by omega),
            List.drop_append_of_le_length (by omega)]

/-- Folding the outer loop over all remaining segments preserves the
invariant and never fails. -/
theorem write_cache_fold (g : Nat) (evs : List (List Nat))
    (hwf : ∀ ev ∈ evs, WFEvent ev)
    (hbound : evs.flatten.length < two32) :
    ∀ (segs : List (List Nat)) (st : WCState),
    (∀ s ∈ segs.dropLast, LOG_EVENT_HEADER_LEN ≤ s.length) →
    WCInv g evs segs st →
    ∃ st', segs.foldlM (write_cache_seg g) st = some st' ∧
      WCInv g evs [] st' := by
  intro segs
  induction segs with
  | nil =>
    intro st _ hinv
    exact ⟨st, rfl, hinv⟩
  | cons seg rest ih =>
    intro st hseglen hinv
    have hfirst : rest ≠ [] → LOG_EVENT_HEADER_LEN ≤ seg.length := by
      intro hne
      apply hseglen
      cases rest with
      | nil => exact absurd rfl hne
      | cons b l => simp [List.dropLast]
    have hrestlen : ∀ s ∈ rest.dropLast, LOG_EVENT_HEADER_LEN ≤ s.length := by
      intro s hs
      apply hseglen
      cases rest with
      | nil => simp at hs
      | cons b l =>
        simp only [List.dropLast_cons₂, List.mem_cons]
        exact Or.inr hs
    obtain ⟨st1, hstep, hinv1⟩ :=
      write_cache_seg_inv g evs seg rest st hwf hbound hfirst hinv
    obtain ⟨st2, hfold, hinv2⟩ := ih st1 hrestlen hinv1
    refine ⟨st2, ?_, hinv2⟩
    rw [List.foldlM_cons, hstep]
    exact hfold

/-- C1: in `MYSQL_BIN_LOG::write_cache`, when a transaction cache holding
the well-formed events `evs` is read back in segments `segs` (every segment
except possibly the last at least a header long, as `my_b_fill` delivers
full cache blocks), the copy succeeds and the bytes written to the log file
are exactly the events with each header's 4-byte `end_log_pos` field
(offset 13) incremented by the group base `g`, headers split across segment
boundaries included; and the rewrite touches no byte outside that field —
in particular every payload byte reaches the log file unmodified. -/
theorem write_cache_spec (g : Nat) (evs segs : List (List Nat))
    (hwf : ∀ ev ∈ evs, WFEvent ev)
    (hbound : evs.flatten.length < two32)
    (hflat : segs.flatten = evs.flatten)
    (hseg : ∀ s ∈ segs.dropLast, LOG_EVENT_HEADER_LEN ≤ s.length) :
    ∃ st, write_cache g segs = some st ∧
      st.out = (evs.map (fix_end_log_pos g)).flatten ∧ st.carry = 0 ∧
      ∀ ev ∈ evs,
        (fix_end_log_pos g ev).take LOG_POS_OFFSET = ev.take LOG_POS_OFFSET ∧
        (fix_end_log_pos g ev).drop (LOG_POS_OFFSET + 4)
          = ev.drop (LOG_POS_OFFSET + 4) := by
  have hinv0 : WCInv g evs segs ⟨0, [], 0, []⟩ := by
    refine ⟨[], evs, by simp, Or.inl ⟨rfl, rfl, [], rfl, by simp, by simpa using hflat⟩⟩
  obtain ⟨st, hfold, hinv⟩ := write_cache_fold g evs hwf hbound segs _ hseg hinv0
  obtain ⟨evsDone, evsRem, hsplit, hcase⟩ := hinv
  have hwfRem : ∀ ev ∈ evsRem, WFEvent ev := by
    intro e he
    exact hwf e (by rw [hsplit]; exact List.mem_append_right _ he)
  rcases hcase with ⟨hcarry, _, pay, _, hout, hflat2⟩ |
    ⟨ev, evsRem2, hevsRem, _, hclt, _, _, hflat2⟩
  · -- the scan ends with no pending bytes: the tail of events must be empty
    simp only [List.flatten_nil] at hflat2
    obtain ⟨hpay, hremflat⟩ := List.append_eq_nil.mp hflat2.symm
    have hrem : evsRem = [] := by
      cases evsRem with
      | nil => rfl
      | cons e l =>
        have h19 := (hwfRem e (by simp)).1
        unfold LOG_EVENT_HEADER_LEN at h19
        have : e ++ l.flatten = [] := by simpa using hremflat
        have he0 : e = [] := (List.append_eq_nil.mp this).1
        rw [he0] at h19
        simp at h19
    subst hrem hpay
    simp only [rwFlat_nil, List.append_nil] at hout
    refine ⟨st, hfold, ?_, hcarry, ?_⟩
    · rw [hout, hsplit]
      simp [rwFlat]
    · intro ev hev
      exact ⟨fix_end_log_pos_take g ev (hwf ev hev),
        fix_end_log_pos_drop g ev _ (hwf ev hev) (Nat.le_refl _)⟩
  · -- a split header cannot be pending after the last segment
    exfalso
    have h19 := (hwfRem ev (by rw [hevsRem]; simp)).1
    unfold LOG_EVENT_HEADER_LEN at h19
    unfold LOG_EVENT_HEADER_LEN at hclt
    simp only [List.flatten_nil] at hflat2
    have := congrArg List.length hflat2
    simp only [List.length_nil, List.length_append, List.length_drop] at this
    omega

/-- A two-event cache: a 22-byte event followed by a 19-byte event. -/
def wcEv1 : List Nat :=
  [1, 2, 3, 4, 10, 9, 9, 9, 9, 22, 0, 0, 0, 22, 0, 0, 0, 0, 1, 100, 101, 102]

def wcEv2 : List Nat :=
  [5, 6, 7, 8, 11, 8, 8, 8, 8, 19, 0, 0, 0, 41, 0, 0, 0, 0, 0]

/-- The same 41 bytes delivered in two fill segments, the second event's
header split across the boundary after its first 8 bytes. -/
def wcSegs : List (List Nat) :=
  [[1, 2, 3, 4, 10, 9, 9, 9, 9, 22, 0, 0, 0, 22, 0, 0, 0, 0, 1, 100, 101, 102,
    5, 6, 7, 8, 11, 8, 8, 8],
   [8, 19, 0, 0, 0, 41, 0, 0, 0, 0, 0]]

theorem write_cache_spec_witness :
    (∀ ev ∈ [wcEv1, wcEv2], WFEvent ev) ∧
    ([wcEv1, wcEv2] : List (List Nat)).flatten.length < two32 ∧
    wcSegs.flatten = ([wcEv1, wcEv2] : List (List Nat)).flatten ∧
    (∀ s ∈ wcSegs.dropLast, LOG_EVENT_HEADER_LEN ≤ s.length) ∧
    ∃ st, write_cache 300 wcSegs = some st ∧
      st.out = ([wcEv1, wcEv2].map (fix_end_log_pos 300)).flatten ∧
      st.carry = 0 ∧
      ∀ ev ∈ [wcEv1, wcEv2],
        (fix_end_log_pos 300 ev).take LOG_POS_OFFSET = ev.take LOG_POS_OFFSET ∧
        (fix_end_log_pos 300 ev).drop (LOG_POS_OFFSET + 4)
          = ev.drop (LOG_POS_OFFSET + 4) :=
  ⟨by decide, by decide, by decide, by decide,
   write_cache_spec 300 [wcEv1, wcEv2] wcSegs
     (by decide) (by decide) (by decide) (by decide)⟩

end MysqlBinlog
